import Mathlib

/-!
Shallow embedding of `src/src/jitter_buffer.c` (an adaptive audio jitter
buffer) and proofs about it.

Modelling conventions:
* `size_t` arithmetic is `Nat` with explicit wraparound mod `2 ^ 64`
  (`wadd` / `wsub`); `uint32_t` counters wrap mod `2 ^ 32`.
* The byte ring `uint8_t *buffer` is a function `Nat → Nat`; stores reduce
  the stored value mod 256 (storage into a `uint8_t` cell), so every
  reachable buffer holds values `< 256` and `(b0 << 8) | b1` coincides with
  `b0 * 256 + b1`.
* The mutex, the FreeRTOS task, `vTaskDelayUntil`, event groups and the
  esp_event loop are concurrency / real-time machinery: operations are
  modelled at their mutex-protected core, one atomic step per call, and
  `s_post_state_event` is modelled as emitting the event value (conditional
  on a configured event loop).  Mutex timeouts and allocation failures are
  environment effects and are not modelled.
-/

namespace Jitter

/-- Word size of `size_t` on the target (64-bit). -/
def W : Nat := 2 ^ 64

/-- `a + b` in `size_t` arithmetic. -/
def wadd (a b : Nat) : Nat := (a + b) % W

/-- `a - b` in `size_t` arithmetic (wraparound subtraction, `a, b < W`). -/
def wsub (a b : Nat) : Nat := (a + (W - b % W)) % W

/-- `jitter_buffer_state_t`. -/
inductive JState
  | idle
  | buffering
  | playing
  | underrun
deriving DecidableEq, Repr

/-- The three event ids posted via `s_post_state_event`. -/
inductive JEvent
  | buffering
  | underrun
  | playing
deriving DecidableEq, Repr

/-- `jitter_buffer_config_t`.  The `on_output_data` function pointer is
modelled by whether it is non-null; `event_loop` by whether one is set. -/
structure Config where
  on_output_data_set : Bool
  buffer_size : Nat
  with_header : Bool
  frame_size : Nat
  frame_interval : Nat
  high_water : Nat
  low_water : Nat
  audio_format_id : Nat
  output_silence_on_empty : Bool
  event_loop : Bool
deriving DecidableEq, Repr

/-- The mutex-protected state of `jitter_buffer_t` (the mutex, task handle
and event groups are concurrency machinery, not data). -/
structure JB where
  config : Config
  buffer : Nat → Nat
  buffer_size : Nat
  write_pos : Nat
  read_pos : Nat
  data_size : Nat
  total_read : Nat
  total_written : Nat
  state : JState
  underrun_count : Nat
  overrun_count : Nat

/-- `esp_err_t` results that the modelled operations can produce. -/
inductive EspErr
  | ok
  | invalidArg
  | timeout
deriving DecidableEq, Repr

/-- Store `data` into the ring at offsets `pos, pos + 1, …` taken mod `C`.
Models the split pair of `memcpy`s in `s_ring_write`, whose caller
guarantees `data.length ≤ C − d ≤ C` (comment in the source); under that
precondition the two-`memcpy` copy writes `data[k]` to cell
`(pos + k) % C`, which is what this function says.  Stored values are
reduced mod 256 (`uint8_t` cells). -/
def ringStore (C : Nat) (buf : Nat → Nat) (pos : Nat) (data : List Nat) : Nat → Nat :=
  fun i =>
    let off := (C + i - pos % C) % C
    if off < data.length then data.getD off 0 % 256 else buf i

/-- `s_ring_write` (lines 79–94): raw ring write; advances `w`, `d`,
`total_written`.  All `size_t` updates wrap mod `2 ^ 64`. -/
def s_ring_write (jb : JB) (data : List Nat) : JB :=
  if data.length = 0 then jb
  else
    { jb with
      buffer := ringStore jb.buffer_size jb.buffer jb.write_pos data
      write_pos := (wadd jb.write_pos data.length) % jb.buffer_size
      data_size := wadd jb.data_size data.length
      total_written := wadd jb.total_written data.length }

/-- `s_ring_peek` (lines 97–110): copy up to `min len d` bytes starting at
`r` without advancing; returned as the list of bytes read.  As with
`ringStore`, the split `memcpy` equals element-wise modular indexing for
`min len d ≤ C`. -/
def s_ring_peek (jb : JB) (len : Nat) : List Nat :=
  (List.range (min len jb.data_size)).map
    fun i => jb.buffer ((jb.read_pos + i) % jb.buffer_size)

/-- `s_ring_read` (lines 113–130): like peek but advances `r`, decrements
`d`, bumps `total_read`; returns the bytes read (their number is the
function's `size_t` return). -/
def s_ring_read (jb : JB) (len : Nat) : List Nat × JB :=
  let toRead := min len jb.data_size
  if toRead = 0 then ([], jb)
  else
    ((List.range toRead).map (fun i => jb.buffer ((jb.read_pos + i) % jb.buffer_size)),
     { jb with
        read_pos := (wadd jb.read_pos toRead) % jb.buffer_size
        data_size := jb.data_size - toRead
        total_read := wadd jb.total_read toRead })

/-- The record walk inside `s_get_frame_count_with_header` (lines 139–153),
recursing on `remaining` (each step consumes `2 + L ≥ 2` bytes).  Buffer
cells are `uint8_t`, so `(b0 << 8) | b1` is `b0 * 256 + b1`. -/
def frameWalk (C : Nat) (buf : Nat → Nat) (rpos : Nat) (offset remaining : Nat) : Nat :=
  if h2 : 2 ≤ remaining then
    let b0 := buf ((rpos + offset) % C)
    let b1 := buf ((rpos + offset + 1) % C)
    let L := b0 * 256 + b1
    if C / 2 < L then 0
    else if remaining < 2 + L then 0
    else 1 + frameWalk C buf rpos (offset + (2 + L)) (remaining - (2 + L))
  else 0
termination_by remaining
decreasing_by omega

/-- `s_get_frame_count_with_header` (lines 133–155). -/
def s_get_frame_count_with_header (jb : JB) : Nat :=
  frameWalk jb.buffer_size jb.buffer jb.read_pos 0 jb.data_size

/-- The frame-count expression duplicated at lines 227–229 and 549–551:
record walk in `with_header` mode, `d / frame_size` otherwise. -/
def frameCount (jb : JB) : Nat :=
  if jb.config.with_header then s_get_frame_count_with_header jb
  else jb.data_size / jb.config.frame_size

/-- `s_post_state_event` (lines 65–76): posts the event to the configured
event loop when one is present. -/
def s_post_state_event (jb : JB) (e : JEvent) : List JEvent :=
  if jb.config.event_loop then [e] else []

/-- Result of `s_jitter_buffer_read`: the `int` return (never −1 in the
model, which assumes a live buffer and an acquired mutex), the bytes placed
in the caller's `data` buffer, the events posted, and the new state. -/
structure ReadRes where
  ret : Nat
  bytes : List Nat
  events : List JEvent
  jb : JB

/-- The chunked discard loop at lines 276–280: reads `min left frame_size`
bytes at a time into the scratch `frame_buffer` until `left` is exhausted.
With `frame_size = 0` and `left > 0` the source loops forever; the model
stops there instead (no claim exercises that configuration). -/
def skipChunks (jb : JB) (left : Nat) : JB :=
  if left = 0 then jb
  else
    let chunk := min left jb.config.frame_size
    if h0 : chunk = 0 then jb
    else skipChunks (s_ring_read jb chunk).2 (left - chunk)
termination_by left
decreasing_by simp only [chunk] at h0 ⊢; omega

/-- The data-consuming tail of `s_jitter_buffer_read` (lines 257–302),
reached after both state-machine gates. -/
def readData (jb : JB) (len : Nat) (evs : List JEvent) : ReadRes :=
  if jb.config.with_header then
    if jb.data_size < 2 then ⟨0, [], evs, jb⟩
    else
      let hdr := s_ring_peek jb 2
      let payload_len := hdr.getD 0 0 * 256 + hdr.getD 1 0
      if jb.config.frame_size < payload_len then
        if jb.data_size < 2 + payload_len then ⟨0, [], evs, jb⟩
        else ⟨0, [], evs, skipChunks (s_ring_read jb 2).2 payload_len⟩
      else if jb.data_size < 2 + payload_len then ⟨0, [], evs, jb⟩
      else
        let jb1 := (s_ring_read jb 2).2
        let got := s_ring_read jb1 payload_len
        ⟨got.1.length, got.1, evs, got.2⟩
  else
    let read_len := min len jb.data_size
    if read_len = 0 then ⟨0, [], evs, jb⟩
    else
      let got := s_ring_read jb read_len
      ⟨read_len, got.1, evs, got.2⟩

/-- The PLAYING low-water gate of `s_jitter_buffer_read` (lines 245–255)
followed by the data path; `jb` here already reflects the first gate. -/
def readAfterHighGate (jb : JB) (len : Nat) (evs : List JEvent) : ReadRes :=
  if jb.state = JState.playing ∧ frameCount jb < jb.config.low_water then
    ⟨0, [], evs ++ s_post_state_event jb JEvent.underrun,
     { jb with state := JState.underrun,
               underrun_count := (jb.underrun_count + 1) % 2 ^ 32 }⟩
  else readData jb len evs

/-- `s_jitter_buffer_read` (lines 216–303) at its mutex-protected core.
Note the frame count is computed once, before either gate. -/
def s_jitter_buffer_read (jb : JB) (len : Nat) : ReadRes :=
  let fc := frameCount jb
  if jb.state = JState.buffering ∨ jb.state = JState.underrun then
    if jb.config.high_water ≤ fc then
      readAfterHighGate { jb with state := JState.playing } len
        (s_post_state_event jb JEvent.playing)
    else ⟨0, [], [], jb⟩
  else readAfterHighGate jb len []

/-- What one pump tick does with the callback. -/
inductive TickOut
  | noCall
  | dataOut (bytes : List Nat)
  | silenceOut (bytes : List Nat)
deriving DecidableEq, Repr

/-- `s_jitter_buffer_process` (lines 157–169) without `vTaskDelayUntil`
(real time is not modelled): one pump tick.  `dataOut bs` models
`on_output_data(frame_buffer, read_len)` with `bs` the bytes the read put
into `frame_buffer`; `silenceOut` models the zeroed-scratch call. -/
def s_jitter_buffer_process (jb : JB) : TickOut × List JEvent × JB :=
  let r := s_jitter_buffer_read jb jb.config.frame_size
  if 0 < r.ret then (TickOut.dataOut r.bytes, r.events, r.jb)
  else if jb.config.output_silence_on_empty then
    (TickOut.silenceOut (List.replicate jb.config.frame_size 0), r.events, r.jb)
  else (TickOut.noCall, r.events, r.jb)

/-- `jitter_buffer_create` (lines 305–415) with every allocation and the
task spawn succeeding (environment effects).  The only configuration check
in the source is `config->frame_interval <= 0`; `frame_interval` is
`uint32_t`, so this is `frame_interval == 0`.  In `with_header` mode
`buffer_size` is raised to `high_water * (2 + frame_size)` computed in
`size_t` after the `uint32` sum `2 + frame_size`. -/
def jitter_buffer_create (config : Config) : Option JB :=
  if config.frame_interval = 0 then none
  else
    let bsize :=
      if config.with_header then
        max config.buffer_size ((config.high_water * ((2 + config.frame_size) % 2 ^ 32)) % W)
      else config.buffer_size
    some { config := config, buffer := fun _ => 0, buffer_size := bsize,
           write_pos := 0, read_pos := 0, data_size := 0,
           total_read := 0, total_written := 0, state := JState.idle,
           underrun_count := 0, overrun_count := 0 }

/-- `jitter_buffer_reset` (lines 455–472) at its mutex-protected core. -/
def jitter_buffer_reset (jb : JB) : EspErr × JB × List JEvent :=
  (EspErr.ok,
   { jb with write_pos := 0, read_pos := 0, data_size := 0, state := JState.buffering },
   s_post_state_event jb JEvent.buffering)

/-- The whole-record discard loop of `jitter_buffer_write` (lines 502–516),
returning the new `(read_pos, data_size)`.  `b0` is read at `read_pos`
unmasked, exactly as in the source; `available_space` is the `size_t`
difference `C − d` recomputed each iteration. -/
def discardLoop (C : Nat) (buf : Nat → Nat) (r d wlen : Nat) : Nat × Nat :=
  if h : wsub C d < wlen ∧ 2 ≤ d then
    let b0 := buf r
    let b1 := buf ((r + 1) % C)
    let L := b0 * 256 + b1
    if C / 2 < L then (r, d)
    else if d < 2 + L then (r, d)
    else discardLoop C buf ((r + 2 + L) % C) (d - (2 + L)) wlen
  else (r, d)
termination_by d
decreasing_by omega

/-- The overflow branch of `jitter_buffer_write` (lines 498–537), run when
`write_len > available_space`: in `with_header` mode the whole-record
discard loop followed by a byte-granular discard of the residual shortfall
if the record still does not fit; in fixed mode a byte-granular discard of
exactly the shortfall.  `overrun_count` (a `uint32_t`) is incremented once
either way. -/
def writeDiscard (jb : JB) (write_len : Nat) : JB :=
  if jb.config.with_header then
    let rd := discardLoop jb.buffer_size jb.buffer jb.read_pos jb.data_size write_len
    let avail1 := wsub jb.buffer_size rd.2
    let rd2 :=
      if avail1 < write_len then
        ((wadd rd.1 (write_len - avail1)) % jb.buffer_size,
         wsub rd.2 (write_len - avail1))
      else rd
    { jb with read_pos := rd2.1, data_size := rd2.2,
              overrun_count := (jb.overrun_count + 1) % 2 ^ 32 }
  else
    let discard := write_len - wsub jb.buffer_size jb.data_size
    { jb with read_pos := (wadd jb.read_pos discard) % jb.buffer_size,
              data_size := wsub jb.data_size discard,
              overrun_count := (jb.overrun_count + 1) % 2 ^ 32 }

/-- The store step of `jitter_buffer_write` (lines 539–547): in
`with_header` mode the 2-byte big-endian header `(len >> 8) & 0xff`,
`len & 0xff` followed by the payload; in fixed mode the payload alone. -/
def writeStore (jb : JB) (data : List Nat) : JB :=
  if jb.config.with_header then
    s_ring_write (s_ring_write jb [data.length / 256 % 256, data.length % 256]) data
  else
    s_ring_write jb data

/-- `jitter_buffer_write` (lines 474–565) at its mutex-protected core:
overflow discard first when the wire length exceeds the free space, then
the ring store, then the high-water transition check (lines 549–561). -/
def jitter_buffer_write (jb : JB) (data : List Nat) : EspErr × JB × List JEvent :=
  let write_len := if jb.config.with_header then wadd 2 data.length else data.length
  let jb1 :=
    if wsub jb.buffer_size jb.data_size < write_len then writeDiscard jb write_len else jb
  let jb2 := writeStore jb1 data
  if (jb2.state = JState.buffering ∨ jb2.state = JState.underrun) ∧
      jb.config.high_water ≤ frameCount jb2 then
    (EspErr.ok, { jb2 with state := JState.playing }, s_post_state_event jb JEvent.playing)
  else
    (EspErr.ok, jb2, [])

/-- `jitter_buffer_start` (lines 567–585) at its state-mutating core: the
pump is unparked (control-channel machinery, not modelled) and the playback
state is forced to BUFFERING. -/
def jitter_buffer_start (jb : JB) : EspErr × JB × List JEvent :=
  (EspErr.ok, { jb with state := JState.buffering }, s_post_state_event jb JEvent.buffering)

/-- The queue of bytes the ring currently holds: `data_size` bytes starting
at `read_pos`. -/
def contents (jb : JB) : List Nat :=
  (List.range jb.data_size).map fun i => jb.buffer ((jb.read_pos + i) % jb.buffer_size)

/-- The wire length of a payload: `2 + len` in `with_header` mode. -/
def wireLen (jb : JB) (data : List Nat) : Nat :=
  if jb.config.with_header then 2 + data.length else data.length

/-- A small fixed-mode configuration used to instantiate proved theorems at
concrete states. -/
def cfgFix : Config :=
  { on_output_data_set := true, buffer_size := 4, with_header := false,
    frame_size := 2, frame_interval := 20, high_water := 1, low_water := 1,
    audio_format_id := 0, output_silence_on_empty := false, event_loop := true }

/-- The state `jitter_buffer_create cfgFix` produces. -/
def jbFix0 : JB :=
  { config := cfgFix, buffer := fun _ => 0, buffer_size := 4, write_pos := 0,
    read_pos := 0, data_size := 0, total_read := 0, total_written := 0,
    state := JState.idle, underrun_count := 0, overrun_count := 0 }

/-- A configuration that violates three of the four conditions the spec
says `create` validates (`frame_size = 0`, `low_water = 0 = high_water`,
null callback) while keeping `frame_interval > 0`. -/
def cfgBad : Config :=
  { on_output_data_set := false, buffer_size := 64, with_header := false,
    frame_size := 0, frame_interval := 20, high_water := 0, low_water := 0,
    audio_format_id := 0, output_silence_on_empty := false, event_loop := false }

/-- A small `with_header` configuration for concrete instantiations. -/
def cfgHdr : Config :=
  { on_output_data_set := true, buffer_size := 16, with_header := true,
    frame_size := 4, frame_interval := 20, high_water := 1, low_water := 1,
    audio_format_id := 0, output_silence_on_empty := false, event_loop := true }

/-- The state `jitter_buffer_create cfgHdr` produces (`C` stays 16, above
`high_water * (2 + frame_size) = 6`). -/
def jbHdr0 : JB :=
  { config := cfgHdr, buffer := fun _ => 0, buffer_size := 16, write_pos := 0,
    read_pos := 0, data_size := 0, total_read := 0, total_written := 0,
    state := JState.idle, underrun_count := 0, overrun_count := 0 }

/-- A full fixed-mode ring (two 2-byte frames in a 4-byte ring), playing. -/
def jbFixFull : JB :=
  { config := cfgFix, buffer := fun i => i % 4 + 1, buffer_size := 4,
    write_pos := 0, read_pos := 0, data_size := 4, total_read := 0,
    total_written := 4, state := JState.playing, underrun_count := 0,
    overrun_count := 0 }

/-- An empty fixed-mode ring in BUFFERING, as left by `start` on a fresh
`create cfgFix` handle. -/
def jbFixB : JB :=
  { config := cfgFix, buffer := fun _ => 0, buffer_size := 4, write_pos := 0,
    read_pos := 0, data_size := 0, total_read := 0, total_written := 0,
    state := JState.buffering, underrun_count := 0, overrun_count := 0 }

/-- Buffer states reachable from a successful `create` through `write`,
pump-tick reads, `reset` (and `start`, which only touches the playback
state).  `create` must have produced a non-empty ring that fits the address
space (`2C < 2 ^ 64`: an allocated object is smaller than half the address
space), and a written source buffer together with the ring must be
addressable (`len + C + 2 < 2 ^ 64`). -/
inductive Reachable : JB → Prop
  | init (cfg : Config) (jb : JB) (hc : jitter_buffer_create cfg = some jb)
      (hpos : 0 < jb.buffer_size) (hrep : 2 * jb.buffer_size < W) : Reachable jb
  | write (jb : JB) (data : List Nat) (hr : Reachable jb)
      (hlen : data.length + jb.buffer_size + 2 < W) :
      Reachable (jitter_buffer_write jb data).2.1
  | tick (jb : JB) (hr : Reachable jb) : Reachable (s_jitter_buffer_process jb).2.2
  | reset (jb : JB) (hr : Reachable jb) : Reachable (jitter_buffer_reset jb).2.1
  | start (jb : JB) (hr : Reachable jb) : Reachable (jitter_buffer_start jb).2.1

/-- The ring invariant plus the structural bounds that make the `size_t`
arithmetic exact. -/
def Inv (jb : JB) : Prop :=
  0 < jb.buffer_size ∧ 2 * jb.buffer_size < W ∧
  jb.read_pos < jb.buffer_size ∧ jb.write_pos < jb.buffer_size ∧
  jb.data_size ≤ jb.buffer_size ∧
  (jb.read_pos + jb.data_size) % jb.buffer_size = jb.write_pos

/-- Modelled from the spec (§3, frame count): the record walk over the
linear sequence of buffered bytes — if fewer than 2 bytes remain stop; read
`L` big-endian; if `L > C/2` stop; if fewer than `2+L` bytes remain stop;
else advance `2+L` bytes and count one frame. -/
def specFrameWalk (C : Nat) : List Nat → Nat
  | b0 :: b1 :: rest =>
    if C / 2 < b0 * 256 + b1 then 0
    else if rest.length < b0 * 256 + b1 then 0
    else 1 + specFrameWalk C (rest.drop (b0 * 256 + b1))
  | _ => 0
termination_by l => l.length
decreasing_by simp only [List.length_cons, List.length_drop]; omega

/-- A header-mode ring holding one complete record `[0, 2, 5, 6]`. -/
def jbHdrFull : JB :=
  { config := cfgHdr, buffer := fun i => [0, 2, 5, 6].getD i 0, buffer_size := 16,
    write_pos := 4, read_pos := 0, data_size := 4, total_read := 0,
    total_written := 4, state := JState.playing, underrun_count := 0,
    overrun_count := 0 }

/-- The on-ring encoding of one record: 2-byte big-endian length, then the
payload (§6 wire format; exactly the bytes `jitter_buffer_write` stores). -/
def encodeRecord (p : List Nat) : List Nat :=
  p.length / 256 % 256 :: p.length % 256 :: p

/-- The on-ring encoding of a record sequence. -/
def encodeRecords (ps : List (List Nat)) : List Nat :=
  (ps.map encodeRecord).flatten

/-- A payload whose record the walks parse back exactly: its length fits
the 16-bit header and is plausible (`≤ C/2`). -/
abbrev GoodPayload (C : Nat) (p : List Nat) : Prop :=
  p.length ≤ C / 2 ∧ p.length < 65536

/-- Modelled from the spec (§4.B overflow, `with_header`): repeatedly
discard whole records from the head until the new record fits or no whole
record is left. -/
def dropRecordsUntilFit (C wlen : Nat) : List (List Nat) → List (List Nat)
  | [] => []
  | p :: rest =>
    if C - (encodeRecords (p :: rest)).length < wlen then
      dropRecordsUntilFit C wlen rest
    else p :: rest

/-- Run a sequence of producer writes back to back. -/
def writeList (jb : JB) : List (List Nat) → JB
  | [] => jb
  | p :: ps => writeList (jitter_buffer_write jb p).2.1 ps

/-- Run `n` pump ticks, collecting the byte sequences of the data-producing
callback invocations (`read_len > 0`) in order. -/
def drainTicks : Nat → JB → List (List Nat)
  | 0, _ => []
  | n + 1, jb =>
    match s_jitter_buffer_process jb with
    | (TickOut.dataOut bs, _, jb2) => bs :: drainTicks n jb2
    | (TickOut.silenceOut _, _, jb2) => drainTicks n jb2
    | (TickOut.noCall, _, jb2) => drainTicks n jb2

/-- One producer/pump operation of an interleaved schedule. -/
inductive Op
  | write (p : List Nat)
  | tick

/-- The payloads passed to `jitter_buffer_write` by a schedule, in order. -/
def opsWrites : List Op → List (List Nat)
  | [] => []
  | Op.write p :: ops => p :: opsWrites ops
  | Op.tick :: ops => opsWrites ops

/-- Run a schedule of writes and pump ticks, collecting the byte sequences
of the data-producing callback invocations (`read_len > 0`) in order,
together with the final state. -/
def runOps : JB → List Op → List (List Nat) × JB
  | jb, [] => ([], jb)
  | jb, Op.write p :: ops => runOps (jitter_buffer_write jb p).2.1 ops
  | jb, Op.tick :: ops =>
    match s_jitter_buffer_process jb with
    | (TickOut.dataOut bs, _, jb2) =>
        (bs :: (runOps jb2 ops).1, (runOps jb2 ops).2)
    | (TickOut.silenceOut _, _, jb2) => runOps jb2 ops
    | (TickOut.noCall, _, jb2) => runOps jb2 ops

/-- Every write of the schedule fits in the free space at the time it
runs (the claim's "no write overflows the ring"). -/
def opsFit : JB → List Op → Bool
  | _, [] => true
  | jb, Op.write p :: ops =>
    if jb.data_size + wireLen jb p ≤ jb.buffer_size then
      opsFit (jitter_buffer_write jb p).2.1 ops
    else false
  | jb, Op.tick :: ops => opsFit (s_jitter_buffer_process jb).2.2 ops

/-! ### Arithmetic helpers -/

theorem W_eq : W = 18446744073709551616 := by norm_num [W]

theorem wadd_small {a b : Nat} (h : a + b < W) : wadd a b = a + b := by
  simp [wadd, Nat.mod_eq_of_lt h]

theorem wsub_of_le {a b : Nat} (hb : b ≤ a) (ha : a < W) : wsub a b = a - b := by
  have hbW : b < W := lt_of_le_of_lt hb ha
  simp only [wsub, Nat.mod_eq_of_lt hbW]
  rw [W_eq] at *
  omega

/-- `a % n = b` whenever `a ≡ b [MOD n]` and `b < n`. -/
theorem mod_eq_of_modEq {a b n : Nat} (h : a ≡ b [MOD n]) (hb : b < n) : a % n = b := by
  have : a % n = b % n := h
  rw [this, Nat.mod_eq_of_lt hb]

/-! ### Field characterisations of the ring primitives -/

@[simp] theorem s_ring_write_read_pos (jb : JB) (data : List Nat) :
    (s_ring_write jb data).read_pos = jb.read_pos := by
  unfold s_ring_write; split <;> rfl

@[simp] theorem s_ring_write_state (jb : JB) (data : List Nat) :
    (s_ring_write jb data).state = jb.state := by
  unfold s_ring_write; split <;> rfl

@[simp] theorem s_ring_write_config (jb : JB) (data : List Nat) :
    (s_ring_write jb data).config = jb.config := by
  unfold s_ring_write; split <;> rfl

@[simp] theorem s_ring_write_buffer_size (jb : JB) (data : List Nat) :
    (s_ring_write jb data).buffer_size = jb.buffer_size := by
  unfold s_ring_write; split <;> rfl

@[simp] theorem s_ring_write_total_read (jb : JB) (data : List Nat) :
    (s_ring_write jb data).total_read = jb.total_read := by
  unfold s_ring_write; split <;> rfl

@[simp] theorem s_ring_write_underrun_count (jb : JB) (data : List Nat) :
    (s_ring_write jb data).underrun_count = jb.underrun_count := by
  unfold s_ring_write; split <;> rfl

@[simp] theorem s_ring_write_overrun_count (jb : JB) (data : List Nat) :
    (s_ring_write jb data).overrun_count = jb.overrun_count := by
  unfold s_ring_write; split <;> rfl

theorem s_ring_write_buffer (jb : JB) (data : List Nat) :
    (s_ring_write jb data).buffer = ringStore jb.buffer_size jb.buffer jb.write_pos data := by
  unfold s_ring_write
  split
  · next h =>
    funext i
    simp [ringStore, List.length_eq_zero.mp h]
  · rfl

theorem s_ring_write_data_size (jb : JB) (data : List Nat)
    (h : jb.data_size + data.length < W) :
    (s_ring_write jb data).data_size = jb.data_size + data.length := by
  unfold s_ring_write
  split
  · next h0 => simp [List.length_eq_zero.mp h0]
  · simp [wadd_small h]

theorem s_ring_write_write_pos (jb : JB) (data : List Nat)
    (hw : jb.write_pos < jb.buffer_size) (h : jb.write_pos + data.length < W) :
    (s_ring_write jb data).write_pos = (jb.write_pos + data.length) % jb.buffer_size := by
  unfold s_ring_write
  split
  · next h0 => simp [List.length_eq_zero.mp h0, Nat.mod_eq_of_lt hw]
  · simp [wadd_small h]

@[simp] theorem s_ring_read_write_pos (jb : JB) (len : Nat) :
    (s_ring_read jb len).2.write_pos = jb.write_pos := by
  unfold s_ring_read; dsimp only; split <;> rfl

@[simp] theorem s_ring_read_buffer (jb : JB) (len : Nat) :
    (s_ring_read jb len).2.buffer = jb.buffer := by
  unfold s_ring_read; dsimp only; split <;> rfl

@[simp] theorem s_ring_read_state (jb : JB) (len : Nat) :
    (s_ring_read jb len).2.state = jb.state := by
  unfold s_ring_read; dsimp only; split <;> rfl

@[simp] theorem s_ring_read_config (jb : JB) (len : Nat) :
    (s_ring_read jb len).2.config = jb.config := by
  unfold s_ring_read; dsimp only; split <;> rfl

@[simp] theorem s_ring_read_buffer_size (jb : JB) (len : Nat) :
    (s_ring_read jb len).2.buffer_size = jb.buffer_size := by
  unfold s_ring_read; dsimp only; split <;> rfl

@[simp] theorem s_ring_read_total_written (jb : JB) (len : Nat) :
    (s_ring_read jb len).2.total_written = jb.total_written := by
  unfold s_ring_read; dsimp only; split <;> rfl

@[simp] theorem s_ring_read_underrun_count (jb : JB) (len : Nat) :
    (s_ring_read jb len).2.underrun_count = jb.underrun_count := by
  unfold s_ring_read; dsimp only; split <;> rfl

@[simp] theorem s_ring_read_overrun_count (jb : JB) (len : Nat) :
    (s_ring_read jb len).2.overrun_count = jb.overrun_count := by
  unfold s_ring_read; dsimp only; split <;> rfl

@[simp] theorem s_ring_read_data_size (jb : JB) (len : Nat) :
    (s_ring_read jb len).2.data_size = jb.data_size - min len jb.data_size := by
  unfold s_ring_read
  dsimp only
  split
  · next h => dsimp only; omega
  · rfl

theorem s_ring_read_read_pos (jb : JB) (len : Nat)
    (hr : jb.read_pos < jb.buffer_size) (h : jb.read_pos + jb.data_size < W) :
    (s_ring_read jb len).2.read_pos = (jb.read_pos + min len jb.data_size) % jb.buffer_size := by
  unfold s_ring_read
  dsimp only
  split
  · next h0 => simp only [h0, Nat.add_zero, Nat.mod_eq_of_lt hr]
  · have : jb.read_pos + min len jb.data_size < W := by omega
    simp [wadd_small this]

theorem s_ring_read_bytes (jb : JB) (len : Nat) :
    (s_ring_read jb len).1 =
      (List.range (min len jb.data_size)).map
        (fun i => jb.buffer ((jb.read_pos + i) % jb.buffer_size)) := by
  unfold s_ring_read
  dsimp only
  split
  · next h => simp [h]
  · rfl

/-! ### The discard loop advances `r` and shrinks `d` in lock step -/

theorem discardLoop_spec (C : Nat) (buf : Nat → Nat) (hC : 0 < C) :
    ∀ r d wlen, r < C →
      ∃ D, D ≤ d ∧ discardLoop C buf r d wlen = ((r + D) % C, d - D) := by
  intro r d wlen
  induction r, d, wlen using discardLoop.induct C buf with
  | case1 r d wlen h b0 b1 L hL =>
    intro hr
    refine ⟨0, by omega, ?_⟩
    rw [discardLoop]
    simp only [dif_pos h]
    simp only [L, b0, b1] at *
    simp [hL, Nat.mod_eq_of_lt hr]
  | case2 r d wlen h b0 b1 L hL hd =>
    intro hr
    refine ⟨0, by omega, ?_⟩
    rw [discardLoop]
    simp only [dif_pos h]
    simp only [L, b0, b1] at *
    simp [if_neg hL, if_pos hd, Nat.mod_eq_of_lt hr]
  | case3 r d wlen h b0 b1 L hL hd ih =>
    intro hr
    obtain ⟨D, hD, heq⟩ := ih (Nat.mod_lt _ hC)
    refine ⟨2 + L + D, by simp only [L, b0, b1] at *; omega, ?_⟩
    rw [discardLoop]
    simp only [dif_pos h]
    simp only [L, b0, b1] at *
    rw [if_neg hL, if_neg hd, heq]
    simp only [Prod.mk.injEq]
    refine ⟨?_, by omega⟩
    rw [Nat.mod_add_mod]
    congr 1
    ring
  | case4 r d wlen h =>
    intro hr
    refine ⟨0, by omega, ?_⟩
    rw [discardLoop]
    simp [dif_neg h, Nat.mod_eq_of_lt hr]

/-! ### Reading cells back out of `ringStore` -/

/-- Evaluating `ringStore` at the cell `k` positions past `pos`. -/
theorem ringStore_get (C : Nat) (buf : Nat → Nat) (pos : Nat) (data : List Nat)
    (hC : 0 < C) (hpos : pos < C) (k : Nat) (hkC : k < C) :
    ringStore C buf pos data ((pos + k) % C) =
      if k < data.length then data.getD k 0 % 256 else buf ((pos + k) % C) := by
  have hx : (C + (pos + k) % C - pos % C) % C = k := by
    rw [Nat.mod_eq_of_lt hpos]
    apply mod_eq_of_modEq _ hkC
    apply Nat.ModEq.add_right_cancel' pos
    have h1 : (C + (pos + k) % C - pos) + pos = C + (pos + k) % C := by
      have : pos < C + (pos + k) % C := by omega
      omega
    rw [h1]
    calc C + (pos + k) % C
        ≡ C + (pos + k) [MOD C] := Nat.ModEq.add_left C (Nat.mod_modEq _ C)
      _ = k + pos + C := by ring
      _ ≡ k + pos [MOD C] := Nat.add_mod_right _ _
  simp only [ringStore, hx]

/-- Cells at ring indices `(pos + k) % C` with `data.length ≤ k < C` are
untouched by `ringStore`. -/
theorem ringStore_get_old (C : Nat) (buf : Nat → Nat) (pos : Nat) (data : List Nat)
    (hC : 0 < C) (hpos : pos < C) (k : Nat) (hkC : k < C) (hk : data.length ≤ k) :
    ringStore C buf pos data ((pos + k) % C) = buf ((pos + k) % C) := by
  rw [ringStore_get C buf pos data hC hpos k hkC, if_neg (by omega)]

/-! ### Ring contents: write appends, read removes from the front -/

theorem contents_length (jb : JB) : (contents jb).length = jb.data_size := by
  simp [contents]

/-- Rewriting a cell index relative to `r` as one relative to `w`. -/
theorem idx_shift (C r d n : Nat) (hd : d ≤ C) (hn : d ≤ n) :
    ((r + d) % C + (n - d)) % C = (r + n) % C := by
  rw [Nat.mod_add_mod]
  congr 1
  omega

/-- Rewriting a cell index below `d` relative to `w`. -/
theorem idx_shift_old (C r d n : Nat) (hd : d ≤ C) (hn : n < d) :
    ((r + d) % C + (C - d + n)) % C = (r + n) % C := by
  rw [Nat.mod_add_mod]
  have h1 : r + d + (C - d + n) = C + (r + n) := by omega
  rw [h1, Nat.add_mod_left]

theorem contents_s_ring_write (jb : JB) (data : List Nat) (hI : Inv jb)
    (hfit : jb.data_size + data.length ≤ jb.buffer_size) :
    contents (s_ring_write jb data) = contents jb ++ data.map (fun b => b % 256) := by
  obtain ⟨hC, hW, hr, hw, hd, hrel⟩ := hI
  have hds : (s_ring_write jb data).data_size = jb.data_size + data.length :=
    s_ring_write_data_size _ _ (by omega)
  apply List.ext_getElem
  · simp [contents, hds]
  intro n h1 h2
  simp only [contents, List.getElem_map, List.getElem_range, s_ring_write_buffer,
    s_ring_write_read_pos, s_ring_write_buffer_size] at h1 h2 ⊢
  simp only [contents, List.length_map, List.length_range, List.length_append] at h1 h2
  rw [hds] at h1
  by_cases hn : n < jb.data_size
  · -- untouched cell: `(r + n) % C` is `C - d + n` past `w`
    have hkey : (jb.read_pos + n) % jb.buffer_size =
        (jb.write_pos + (jb.buffer_size - jb.data_size + n)) % jb.buffer_size := by
      rw [← hrel, idx_shift_old _ _ _ _ hd hn]
    rw [hkey, ringStore_get_old _ _ _ _ hC hw _ (by omega) (by omega), ← hkey]
    rw [List.getElem_append_left (by simpa [contents] using hn)]
    simp [contents]
  · -- fresh cell: `(r + n) % C` is `n - d` past `w`
    have hkey : (jb.read_pos + n) % jb.buffer_size =
        (jb.write_pos + (n - jb.data_size)) % jb.buffer_size := by
      rw [← hrel, idx_shift _ _ _ _ hd (by omega)]
    have hlt : n - jb.data_size < data.length := by omega
    rw [hkey, ringStore_get _ _ _ _ hC hw _ (by omega), if_pos hlt]
    rw [List.getElem_append_right (by simpa [contents] using hn)]
    simp [contents, List.getD_eq_getElem _ _ hlt]
    simp [List.getElem?_eq_getElem hlt]

theorem s_ring_read_bytes_take (jb : JB) (len : Nat) :
    (s_ring_read jb len).1 = (contents jb).take len := by
  rw [s_ring_read_bytes]
  apply List.ext_getElem
  · simp [contents]
  intro n h1 h2
  simp only [List.getElem_map, List.getElem_range, List.getElem_take, contents]

theorem contents_s_ring_read (jb : JB) (len : Nat)
    (hC : 0 < jb.buffer_size) (hr : jb.read_pos < jb.buffer_size)
    (hWd : jb.read_pos + jb.data_size < W) :
    contents (s_ring_read jb len).2 = (contents jb).drop len := by
  apply List.ext_getElem
  · simp [contents]; omega
  intro n h1 h2
  simp only [contents, List.getElem_map, List.getElem_range, List.getElem_drop,
    s_ring_read_buffer, s_ring_read_buffer_size, s_ring_read_data_size] at h1 h2 ⊢
  simp only [List.length_map, List.length_range] at h1
  rw [s_ring_read_read_pos _ _ hr hWd, Nat.mod_add_mod]
  congr 2
  simp only [contents, List.length_drop, List.length_map, List.length_range] at h2
  omega

/-! ### Invariant preservation -/

theorem s_ring_write_data_size_mod (jb : JB) (data : List Nat) (h : jb.data_size < W) :
    (s_ring_write jb data).data_size = (jb.data_size + data.length) % W := by
  unfold s_ring_write
  split
  · next h0 => simp [List.length_eq_zero.mp h0, Nat.mod_eq_of_lt h]
  · rfl

theorem s_ring_write_write_pos_mod (jb : JB) (data : List Nat)
    (hw : jb.write_pos < jb.buffer_size) (hC : jb.buffer_size < W) :
    (s_ring_write jb data).write_pos = ((jb.write_pos + data.length) % W) % jb.buffer_size := by
  unfold s_ring_write
  split
  · next h0 =>
    simp [List.length_eq_zero.mp h0, Nat.mod_eq_of_lt (lt_trans hw hC), Nat.mod_eq_of_lt hw]
  · rfl

/-- `s_ring_write` keeps the ring invariant when the data fits. -/
theorem Inv_s_ring_write (jb : JB) (data : List Nat) (hI : Inv jb)
    (hfit : jb.data_size + data.length ≤ jb.buffer_size) :
    Inv (s_ring_write jb data) := by
  obtain ⟨hC, hW, hr, hw, hd, hrel⟩ := hI
  have hds := s_ring_write_data_size jb data (by omega)
  have hwp := s_ring_write_write_pos jb data hw (by omega)
  refine ⟨?_, ?_, ?_, ?_, ?_, ?_⟩ <;>
    simp only [s_ring_write_buffer_size, s_ring_write_read_pos, hds, hwp]
  · exact hC
  · exact hW
  · exact hr
  · exact Nat.mod_lt _ hC
  · omega
  · rw [← Nat.add_assoc, ← Nat.mod_add_mod, hrel]

/-- The byte-granular discard of the residual shortfall: where it puts `r`,
and that the occupancy it leaves is congruent to `C − wlen` mod `2 ^ 64`,
so that storing the `wlen` wire bytes fills the ring to exactly `C`. -/
theorem byte_discard_vals (C d0 r0 w wlen : Nat) (hC : 0 < C) (hW : 2 * C < W)
    (hr0 : r0 < C) (hd0 : d0 ≤ C) (hrel : (r0 + d0) % C = w)
    (hov : C - d0 < wlen) (hwC : wlen + C < W) :
    (wadd r0 (wlen - (C - d0))) % C = (w + wlen) % C ∧
    wsub d0 (wlen - (C - d0)) < W ∧
    (wsub d0 (wlen - (C - d0)) + wlen) % W = C := by
  have hdW : wlen - (C - d0) < W := by omega
  have h1 : wadd r0 (wlen - (C - d0)) = r0 + (wlen - (C - d0)) :=
    wadd_small (by omega)
  refine ⟨?_, ?_, ?_⟩
  · rw [h1]
    have h2 : r0 + (wlen - (C - d0)) + C = r0 + d0 + wlen := by omega
    rw [← Nat.add_mod_right (r0 + (wlen - (C - d0))) C, h2, ← Nat.mod_add_mod, hrel]
  · simp only [wsub]
    rw [W_eq]
    omega
  · simp only [wsub]
    rw [W_eq] at *
    omega

/-- After the overflow discard: either the wire bytes now fit with the ring
relation intact, or the occupancy is congruent to `C − wlen`, so the
subsequent store fills the ring to exactly `C`; `r` lands at
`(w + wlen) % C` in the latter case.  `overrun_count` is bumped once. -/
theorem writeDiscard_spec (jb : JB) (wlen : Nat) (hI : Inv jb)
    (hov : jb.buffer_size - jb.data_size < wlen) (hwC : wlen + jb.buffer_size < W) :
    ∃ r2 d2, writeDiscard jb wlen =
      { jb with read_pos := r2, data_size := d2,
                overrun_count := (jb.overrun_count + 1) % 2 ^ 32 } ∧
      r2 < jb.buffer_size ∧ d2 < W ∧
      ((d2 + wlen ≤ jb.buffer_size ∧ (r2 + d2) % jb.buffer_size = jb.write_pos) ∨
       ((d2 + wlen) % W = jb.buffer_size ∧ r2 = (jb.write_pos + wlen) % jb.buffer_size)) := by
  obtain ⟨hC, hW, hr, hw, hd, hrel⟩ := hI
  have hCW : jb.buffer_size < W := by omega
  cases hh : jb.config.with_header
  · -- fixed mode: byte-granular discard of the shortfall
    have havail : wsub jb.buffer_size jb.data_size = jb.buffer_size - jb.data_size :=
      wsub_of_le hd hCW
    obtain ⟨hv1, hv2, hv3⟩ := byte_discard_vals jb.buffer_size jb.data_size jb.read_pos
      jb.write_pos wlen hC hW hr hd hrel hov hwC
    refine ⟨_, _, ?_, Nat.mod_lt _ hC, hv2, Or.inr ⟨hv3, hv1⟩⟩
    simp only [writeDiscard, hh, Bool.false_eq_true, if_false, havail]
  · -- with_header: whole-record loop, then residual byte discard if needed
    obtain ⟨D, hD, hloop⟩ :=
      discardLoop_spec jb.buffer_size jb.buffer hC jb.read_pos jb.data_size wlen hr
    have hr1 : (jb.read_pos + D) % jb.buffer_size < jb.buffer_size := Nat.mod_lt _ hC
    have hd1 : jb.data_size - D ≤ jb.buffer_size := by omega
    have havail1 : wsub jb.buffer_size (jb.data_size - D) =
        jb.buffer_size - (jb.data_size - D) := wsub_of_le (by omega) hCW
    have hrel1 : ((jb.read_pos + D) % jb.buffer_size + (jb.data_size - D)) % jb.buffer_size
        = jb.write_pos := by
      rw [Nat.mod_add_mod]
      have h5 : jb.read_pos + D + (jb.data_size - D) = jb.read_pos + jb.data_size := by
        omega
      rw [h5, hrel]
    by_cases hfit : wsub jb.buffer_size (jb.data_size - D) < wlen
    · -- residual byte discard after the loop
      obtain ⟨hv1, hv2, hv3⟩ := byte_discard_vals jb.buffer_size (jb.data_size - D)
        ((jb.read_pos + D) % jb.buffer_size) jb.write_pos wlen hC hW hr1 hd1 hrel1
        (by rw [havail1] at hfit; exact hfit) hwC
      rw [havail1] at hfit
      refine ⟨_, _, ?_, Nat.mod_lt _ hC, hv2, Or.inr ⟨hv3, hv1⟩⟩
      simp only [writeDiscard, hh, if_true, hloop, havail1, if_pos hfit]
    · -- the records freed enough room
      rw [havail1] at hfit
      refine ⟨_, _, ?_, hr1, by omega, Or.inl ⟨by omega, hrel1⟩⟩
      simp only [writeDiscard, hh, if_true, hloop, havail1, if_neg hfit]

theorem Inv_set_state (jb : JB) (st : JState) : Inv { jb with state := st } ↔ Inv jb :=
  Iff.rfl


/-- `writeStore` preserves the invariant when the wire bytes fit. -/
theorem Inv_writeStore_fit (jb : JB) (data : List Nat) (hI : Inv jb)
    (hfit : jb.data_size + wireLen jb data ≤ jb.buffer_size) :
    Inv (writeStore jb data) := by
  cases hh : jb.config.with_header
  · simp only [writeStore, hh, Bool.false_eq_true, if_false]
    exact Inv_s_ring_write _ _ hI (by simpa [wireLen, hh] using hfit)
  · simp only [wireLen, hh, if_true] at hfit
    simp only [writeStore, hh, if_true]
    have hI1 : Inv (s_ring_write jb [data.length / 256 % 256, data.length % 256]) :=
      Inv_s_ring_write _ _ hI (by simp; omega)
    apply Inv_s_ring_write _ _ hI1
    have hds := s_ring_write_data_size jb [data.length / 256 % 256, data.length % 256]
      (by obtain ⟨hC, hW, _⟩ := hI; simp; omega)
    simp only [s_ring_write_buffer_size, hds]
    simp at hds ⊢
    omega

/-- After an overflow discard that left `d ≡ C − wire` and
`r = (w + wire) % C`, the store fills the ring to exactly `C` and
re-establishes the invariant. -/
theorem Inv_writeStore_exact (jb : JB) (data : List Nat)
    (hC : 0 < jb.buffer_size) (hW : 2 * jb.buffer_size < W)
    (hr : jb.read_pos < jb.buffer_size) (hw : jb.write_pos < jb.buffer_size)
    (hdW : jb.data_size < W)
    (hlen : data.length + jb.buffer_size + 2 < W)
    (hcong : (jb.data_size + wireLen jb data) % W = jb.buffer_size)
    (hrp : jb.read_pos = (jb.write_pos + wireLen jb data) % jb.buffer_size) :
    Inv (writeStore jb data) := by
  have hCW : jb.buffer_size < W := by omega
  cases hh : jb.config.with_header
  · simp only [wireLen, hh, Bool.false_eq_true, if_false] at hcong hrp
    simp only [writeStore, hh, Bool.false_eq_true, if_false]
    have hds := s_ring_write_data_size_mod jb data hdW
    have hwp := s_ring_write_write_pos_mod jb data hw hCW
    refine ⟨?_, ?_, ?_, ?_, ?_, ?_⟩ <;>
      simp only [s_ring_write_buffer_size, s_ring_write_read_pos, hds, hwp]
    · exact hC
    · exact hW
    · exact hr
    · exact Nat.mod_lt _ hC
    · omega
    · rw [hcong, Nat.add_mod_right, Nat.mod_eq_of_lt hr, hrp,
          Nat.mod_eq_of_lt (show jb.write_pos + data.length < W by omega)]
  · simp only [wireLen, hh, if_true] at hcong hrp
    simp only [writeStore, hh, if_true]
    have hds1 := s_ring_write_data_size_mod jb [data.length / 256 % 256, data.length % 256] hdW
    have hwp1 := s_ring_write_write_pos_mod jb [data.length / 256 % 256, data.length % 256] hw hCW
    simp only [List.length_cons, List.length_nil] at hds1 hwp1
    have hd1W : (s_ring_write jb [data.length / 256 % 256, data.length % 256]).data_size < W := by
      rw [hds1]; exact Nat.mod_lt _ (by rw [W_eq]; omega)
    have hds2 := s_ring_write_data_size_mod
      (s_ring_write jb [data.length / 256 % 256, data.length % 256]) data hd1W
    have hw1 : (s_ring_write jb [data.length / 256 % 256, data.length % 256]).write_pos
        < jb.buffer_size := by
      rw [hwp1]; exact Nat.mod_lt _ hC
    have hwp2 := s_ring_write_write_pos_mod
      (s_ring_write jb [data.length / 256 % 256, data.length % 256]) data
      (by simpa using hw1) (by simpa using hCW)
    refine ⟨?_, ?_, ?_, ?_, ?_, ?_⟩ <;>
      simp only [s_ring_write_buffer_size, s_ring_write_read_pos, hds2, hwp2, hds1, hwp1]
    · exact hC
    · exact hW
    · exact hr
    · exact Nat.mod_lt _ hC
    · have h2 : ((jb.data_size + (0 + 1 + 1)) % W + data.length) % W = jb.buffer_size := by
        rw [Nat.mod_add_mod, show jb.data_size + (0 + 1 + 1) + data.length =
            jb.data_size + (2 + data.length) from by omega, hcong]
      omega
    · have h2 : ((jb.data_size + (0 + 1 + 1)) % W + data.length) % W = jb.buffer_size := by
        rw [Nat.mod_add_mod, show jb.data_size + (0 + 1 + 1) + data.length =
            jb.data_size + (2 + data.length) from by omega, hcong]
      rw [h2, Nat.add_mod_right, Nat.mod_eq_of_lt hr, hrp]
      have h3 : (jb.write_pos + (0 + 1 + 1)) % W = jb.write_pos + 2 := by
        rw [Nat.mod_eq_of_lt (by omega)]
      rw [h3]
      rw [Nat.mod_eq_of_lt (show (jb.write_pos + 2) % jb.buffer_size + data.length < W from by
        have := Nat.mod_lt (jb.write_pos + 2) hC; omega)]
      rw [Nat.mod_add_mod]
      congr 1
      omega

@[simp] theorem writeDiscard_state (jb : JB) (wlen : Nat) :
    (writeDiscard jb wlen).state = jb.state := by
  unfold writeDiscard
  repeat' split
  all_goals rfl

@[simp] theorem writeDiscard_config (jb : JB) (wlen : Nat) :
    (writeDiscard jb wlen).config = jb.config := by
  unfold writeDiscard
  repeat' split
  all_goals rfl

@[simp] theorem writeStore_state (jb : JB) (data : List Nat) :
    (writeStore jb data).state = jb.state := by
  unfold writeStore
  repeat' split
  all_goals simp

@[simp] theorem writeStore_config (jb : JB) (data : List Nat) :
    (writeStore jb data).config = jb.config := by
  unfold writeStore
  repeat' split
  all_goals simp

@[simp] theorem writeDiscard_buffer_size (jb : JB) (wlen : Nat) :
    (writeDiscard jb wlen).buffer_size = jb.buffer_size := by
  unfold writeDiscard
  repeat' split
  all_goals rfl

@[simp] theorem writeStore_buffer_size (jb : JB) (data : List Nat) :
    (writeStore jb data).buffer_size = jb.buffer_size := by
  unfold writeStore
  repeat' split
  all_goals simp

/-- The JB returned by `jitter_buffer_write` is the store after the
conditional discard, with possibly only the playback state changed. -/
theorem write_unfold (jb : JB) (data : List Nat) :
    ∃ st, (st = JState.playing ∨ st = jb.state) ∧
      (jitter_buffer_write jb data).2.1 =
      { writeStore
          (if wsub jb.buffer_size jb.data_size <
                (if jb.config.with_header then wadd 2 data.length else data.length)
            then writeDiscard jb
                (if jb.config.with_header then wadd 2 data.length else data.length)
            else jb) data with state := st } := by
  unfold jitter_buffer_write
  dsimp only
  set jb2 := writeStore
      (if wsub jb.buffer_size jb.data_size <
            (if jb.config.with_header then wadd 2 data.length else data.length)
        then writeDiscard jb
            (if jb.config.with_header then wadd 2 data.length else data.length)
        else jb) data with hjb2
  split
  · exact ⟨JState.playing, Or.inl rfl, rfl⟩
  · refine ⟨jb2.state, Or.inr ?_, rfl⟩
    rw [hjb2, writeStore_state]
    split <;> split <;> first
      | rw [writeDiscard_state]
      | rfl

theorem jitter_buffer_write_buffer_size (jb : JB) (data : List Nat) :
    (jitter_buffer_write jb data).2.1.buffer_size = jb.buffer_size := by
  obtain ⟨st, hstd, hst⟩ := write_unfold jb data
  rw [hst]
  show (writeStore _ data).buffer_size = jb.buffer_size
  rw [writeStore_buffer_size]
  split <;> split <;> first
    | rw [writeDiscard_buffer_size]
    | rfl

/-- `jitter_buffer_write` preserves the ring invariant, whatever the payload
length (subject only to the payload being addressable alongside the ring). -/
theorem Inv_jitter_buffer_write (jb : JB) (data : List Nat) (hI : Inv jb)
    (hlen : data.length + jb.buffer_size + 2 < W) :
    Inv (jitter_buffer_write jb data).2.1 := by
  obtain ⟨hC, hW, hr, hw, hd, hrel⟩ := hI
  have hCW : jb.buffer_size < W := by omega
  obtain ⟨st, hstd, hst⟩ := write_unfold jb data
  rw [hst, Inv_set_state]
  have hwl : (if jb.config.with_header then wadd 2 data.length else data.length) =
      wireLen jb data := by
    cases hh : jb.config.with_header <;>
      simp [wireLen, hh, wadd_small (show 2 + data.length < W by omega)]
  rw [hwl]
  by_cases hov : wsub jb.buffer_size jb.data_size < wireLen jb data
  · rw [if_pos hov]
    rw [wsub_of_le hd hCW] at hov
    obtain ⟨r2, d2, heq, hr2, hd2, hcase⟩ :=
      writeDiscard_spec jb (wireLen jb data) ⟨hC, hW, hr, hw, hd, hrel⟩ hov
        (by simp only [wireLen]; split <;> omega)
    rw [heq]
    rcases hcase with ⟨hfit, hrel2⟩ | ⟨hcong, hrp⟩
    · apply Inv_writeStore_fit
      · exact ⟨hC, hW, hr2, hw, by simp only [wireLen] at hfit ⊢; split at hfit <;> omega, hrel2⟩
      · simpa [wireLen] using hfit
    · apply Inv_writeStore_exact <;> simp only [wireLen] at hcong hrp ⊢
      · exact hC
      · exact hW
      · exact hr2
      · exact hw
      · exact hd2
      · exact hlen
      · exact hcong
      · exact hrp
  · rw [if_neg hov]
    rw [wsub_of_le hd hCW] at hov
    exact Inv_writeStore_fit jb data ⟨hC, hW, hr, hw, hd, hrel⟩ (by omega)

/-- `s_ring_read` preserves the ring invariant. -/
theorem Inv_s_ring_read (jb : JB) (len : Nat) (hI : Inv jb) : Inv (s_ring_read jb len).2 := by
  obtain ⟨hC, hW, hr, hw, hd, hrel⟩ := hI
  have hrp := s_ring_read_read_pos jb len hr (by omega)
  refine ⟨?_, ?_, ?_, ?_, ?_, ?_⟩ <;>
    simp only [s_ring_read_buffer_size, s_ring_read_write_pos, s_ring_read_data_size, hrp]
  · exact hC
  · exact hW
  · exact Nat.mod_lt _ hC
  · exact hw
  · omega
  · rw [Nat.mod_add_mod, show jb.read_pos + min len jb.data_size +
        (jb.data_size - min len jb.data_size) = jb.read_pos + jb.data_size from by omega, hrel]

theorem Inv_skipChunks : ∀ (jb : JB) (left : Nat), Inv jb → Inv (skipChunks jb left) := by
  intro jb left
  induction jb, left using skipChunks.induct with
  | case1 jb =>
    intro hI
    rw [skipChunks]
    simpa using hI
  | case2 jb left h0 chunk hc =>
    intro hI
    rw [skipChunks]
    simp only [chunk] at hc
    simp [h0, hc]
    exact hI
  | case3 jb left h0 chunk hc ih =>
    intro hI
    rw [skipChunks]
    simp only [chunk] at hc ih
    simp only [if_neg h0, dif_neg hc]
    exact ih (Inv_s_ring_read _ _ hI)

theorem Inv_readData (jb : JB) (len : Nat) (evs : List JEvent) (hI : Inv jb) :
    Inv (readData jb len evs).jb := by
  unfold readData
  dsimp only
  repeat' split
  all_goals
    first
      | exact hI
      | exact Inv_skipChunks _ _ (Inv_s_ring_read _ _ hI)
      | exact Inv_s_ring_read _ _ (Inv_s_ring_read _ _ hI)
      | exact Inv_s_ring_read _ _ hI

theorem Inv_readAfterHighGate (jb : JB) (len : Nat) (evs : List JEvent) (hI : Inv jb) :
    Inv (readAfterHighGate jb len evs).jb := by
  unfold readAfterHighGate
  split
  · exact hI
  · exact Inv_readData _ _ _ hI

theorem Inv_s_jitter_buffer_read (jb : JB) (len : Nat) (hI : Inv jb) :
    Inv (s_jitter_buffer_read jb len).jb := by
  unfold s_jitter_buffer_read
  dsimp only
  repeat' split
  · exact Inv_readAfterHighGate _ _ _ hI
  · exact hI
  · exact Inv_readAfterHighGate _ _ _ hI

theorem Inv_s_jitter_buffer_process (jb : JB) (hI : Inv jb) :
    Inv (s_jitter_buffer_process jb).2.2 := by
  unfold s_jitter_buffer_process
  dsimp only
  repeat' split
  all_goals exact Inv_s_jitter_buffer_read _ _ hI

theorem Inv_jitter_buffer_reset (jb : JB) (hI : Inv jb) :
    Inv (jitter_buffer_reset jb).2.1 := by
  obtain ⟨hC, hW, _⟩ := hI
  exact ⟨hC, hW, hC, hC, Nat.zero_le _, by simp [jitter_buffer_reset]⟩

theorem Inv_jitter_buffer_start (jb : JB) (hI : Inv jb) :
    Inv (jitter_buffer_start jb).2.1 := hI

theorem Inv_jitter_buffer_create (cfg : Config) (jb : JB)
    (hc : jitter_buffer_create cfg = some jb)
    (hpos : 0 < jb.buffer_size) (hrep : 2 * jb.buffer_size < W) : Inv jb := by
  unfold jitter_buffer_create at hc
  split at hc
  · exact absurd hc (by simp)
  · simp only [Option.some.injEq] at hc
    subst hc
    exact ⟨hpos, hrep, hpos, hpos, Nat.zero_le _, by simp⟩

/-- Every reachable state satisfies the ring invariant. -/
theorem Reachable_Inv (jb : JB) (h : Reachable jb) : Inv jb := by
  induction h with
  | init cfg jb hc hpos hrep => exact Inv_jitter_buffer_create cfg jb hc hpos hrep
  | write jb data hr hlen ih => exact Inv_jitter_buffer_write jb data ih hlen
  | tick jb hr ih => exact Inv_s_jitter_buffer_process jb ih
  | reset jb hr ih => exact Inv_jitter_buffer_reset jb ih
  | start jb hr ih => exact Inv_jitter_buffer_start jb ih

/-! ### C1 -/

/-- C1: for every reachable buffer state — after `create` and any sequence
of `write`, pump-tick read, and `reset` (each observed at its
mutex-protected point) — the occupancy satisfies `0 ≤ d ≤ C` and
`(r + d) mod C = w`; this includes states produced by a write whose wire
length exceeds `C`. -/
theorem ring_occupancy_invariant (jb : JB) (h : Reachable jb) :
    0 ≤ jb.data_size ∧ jb.data_size ≤ jb.buffer_size ∧
    (jb.read_pos + jb.data_size) % jb.buffer_size = jb.write_pos := by
  obtain ⟨_, _, _, _, hd, hrel⟩ := Reachable_Inv jb h
  exact ⟨Nat.zero_le _, hd, hrel⟩

/-- C1 witness: the invariant at a concrete reachable state reached by a
write of 6 bytes into a 4-byte ring (wire length exceeds `C`). -/
theorem ring_occupancy_invariant_witness :
    0 ≤ ((jitter_buffer_write jbFix0 [1, 2, 3, 4, 5, 6]).2.1).data_size ∧
    ((jitter_buffer_write jbFix0 [1, 2, 3, 4, 5, 6]).2.1).data_size ≤
      ((jitter_buffer_write jbFix0 [1, 2, 3, 4, 5, 6]).2.1).buffer_size ∧
    (((jitter_buffer_write jbFix0 [1, 2, 3, 4, 5, 6]).2.1).read_pos +
        ((jitter_buffer_write jbFix0 [1, 2, 3, 4, 5, 6]).2.1).data_size) %
        ((jitter_buffer_write jbFix0 [1, 2, 3, 4, 5, 6]).2.1).buffer_size =
      ((jitter_buffer_write jbFix0 [1, 2, 3, 4, 5, 6]).2.1).write_pos :=
  ring_occupancy_invariant _
    (Reachable.write jbFix0 [1, 2, 3, 4, 5, 6]
      (Reachable.init cfgFix jbFix0 rfl (by decide) (by decide))
      (by decide))

/-! ### C3 -/

/-- C3 counterexample: a configuration with `frame_size = 0`,
`low_water = 0` (so not `0 < low_water ≤ high_water`) and a null
`on_output_data` callback — violating three of the four claimed checks —
on which `create` nevertheless succeeds. -/
theorem create_validation_counterexample :
    cfgBad.frame_size = 0 ∧ cfgBad.low_water = 0 ∧
    cfgBad.on_output_data_set = false ∧
    (jitter_buffer_create cfgBad).isSome = true := by
  refine ⟨rfl, rfl, rfl, ?_⟩
  rfl

/-- C3 amended: with every allocation succeeding, `create` fails exactly on
`frame_interval = 0`; none of the other three conditions (`frame_size > 0`,
`0 < low_water ≤ high_water`, callback non-null) is checked. -/
theorem create_validates_only_interval (cfg : Config) :
    (jitter_buffer_create cfg).isSome = true ↔ 0 < cfg.frame_interval := by
  unfold jitter_buffer_create
  split
  · next h => simp [h]
  · next h => simp only [Option.isSome_some, true_iff]; omega

/-! ### C9 -/

/-- C9: a successful `reset` zeroes `w`, `r`, `d`, forces BUFFERING and
emits exactly one BUFFERING event (an observer being registered), while
leaving `underrun_count`, `overrun_count`, `total_read` and `total_written`
untouched. -/
theorem reset_spec (jb : JB) (hobs : jb.config.event_loop = true) :
    (jitter_buffer_reset jb).1 = EspErr.ok ∧
    (jitter_buffer_reset jb).2.1.write_pos = 0 ∧
    (jitter_buffer_reset jb).2.1.read_pos = 0 ∧
    (jitter_buffer_reset jb).2.1.data_size = 0 ∧
    (jitter_buffer_reset jb).2.1.state = JState.buffering ∧
    (jitter_buffer_reset jb).2.2 = [JEvent.buffering] ∧
    (jitter_buffer_reset jb).2.1.underrun_count = jb.underrun_count ∧
    (jitter_buffer_reset jb).2.1.overrun_count = jb.overrun_count ∧
    (jitter_buffer_reset jb).2.1.total_read = jb.total_read ∧
    (jitter_buffer_reset jb).2.1.total_written = jb.total_written := by
  unfold jitter_buffer_reset s_post_state_event
  simp [hobs]

/-- C9 witness: `reset_spec` instantiated at a concrete state. -/
theorem reset_spec_witness :
    (jitter_buffer_reset jbFix0).1 = EspErr.ok ∧
    (jitter_buffer_reset jbFix0).2.1.write_pos = 0 ∧
    (jitter_buffer_reset jbFix0).2.1.read_pos = 0 ∧
    (jitter_buffer_reset jbFix0).2.1.data_size = 0 ∧
    (jitter_buffer_reset jbFix0).2.1.state = JState.buffering ∧
    (jitter_buffer_reset jbFix0).2.2 = [JEvent.buffering] ∧
    (jitter_buffer_reset jbFix0).2.1.underrun_count = jbFix0.underrun_count ∧
    (jitter_buffer_reset jbFix0).2.1.overrun_count = jbFix0.overrun_count ∧
    (jitter_buffer_reset jbFix0).2.1.total_read = jbFix0.total_read ∧
    (jitter_buffer_reset jbFix0).2.1.total_written = jbFix0.total_written :=
  reset_spec jbFix0 rfl

/-! ### C10 -/

theorem contents_set_state (jb : JB) (st : JState) :
    contents { jb with state := st } = contents jb := rfl

/-- `jitter_buffer_write` never fails in the model (null handles and mutex
timeouts are environment effects): the `esp_err_t` result is always OK. -/
theorem jitter_buffer_write_ret (jb : JB) (data : List Nat) :
    (jitter_buffer_write jb data).1 = EspErr.ok := by
  unfold jitter_buffer_write
  dsimp only
  repeat' split
  all_goals rfl

/-- In `with_header` mode a non-overflowing write appends the 2-byte
big-endian header followed by the payload to the ring contents. -/
theorem contents_writeStore_header (jb : JB) (data : List Nat) (hI : Inv jb)
    (hh : jb.config.with_header = true)
    (hfit : jb.data_size + (2 + data.length) ≤ jb.buffer_size) :
    contents (writeStore jb data) =
      contents jb ++ [data.length / 256 % 256, data.length % 256] ++
        data.map (fun b => b % 256) := by
  simp only [writeStore, hh, if_true]
  have h1 : contents (s_ring_write jb [data.length / 256 % 256, data.length % 256]) =
      contents jb ++ [data.length / 256 % 256, data.length % 256] := by
    rw [contents_s_ring_write jb _ hI (by simp; omega)]
    simp [Nat.mod_mod_of_dvd]
  rw [contents_s_ring_write _ _ (Inv_s_ring_write _ _ hI (by simp; omega)) ?_, h1,
    List.append_assoc]
  have hds := s_ring_write_data_size jb [data.length / 256 % 256, data.length % 256]
    (by obtain ⟨hC, hW, _⟩ := hI; simp; omega)
  simp only [s_ring_write_buffer_size, hds]
  simp at hds ⊢
  omega

/-- A non-overflowing fixed-mode write appends the payload bytes. -/
theorem contents_writeStore_fixed (jb : JB) (data : List Nat) (hI : Inv jb)
    (hh : jb.config.with_header = false)
    (hfit : jb.data_size + data.length ≤ jb.buffer_size) :
    contents (writeStore jb data) = contents jb ++ data.map (fun b => b % 256) := by
  simp only [writeStore, hh, Bool.false_eq_true, if_false]
  exact contents_s_ring_write jb data hI hfit

/-- C10: in `with_header` mode, a write of any payload length is accepted —
no check against `frame_size` or `2 ^ 16` — and the stored 2-byte header is
`len mod 2 ^ 16`, which differs from the stored payload length whenever
`len ≥ 2 ^ 16`; the call reports success. -/
theorem with_header_accepts_any_length (jb : JB) (data : List Nat) (hI : Inv jb)
    (hh : jb.config.with_header = true)
    (hfit : jb.data_size + (2 + data.length) ≤ jb.buffer_size) :
    (jitter_buffer_write jb data).1 = EspErr.ok ∧
    contents (jitter_buffer_write jb data).2.1 =
      contents jb ++ [data.length / 256 % 256, data.length % 256] ++
        data.map (fun b => b % 256) ∧
    data.length / 256 % 256 * 256 + data.length % 256 = data.length % 2 ^ 16 ∧
    (2 ^ 16 ≤ data.length → data.length % 2 ^ 16 ≠ data.length) := by
  have hpow : (2 : Nat) ^ 16 = 65536 := by norm_num
  obtain ⟨hC, hW, hr, hw, hd, hrel⟩ := hI
  refine ⟨jitter_buffer_write_ret jb data, ?_, by rw [hpow]; omega,
    fun hbig => by rw [hpow] at *; omega⟩
  obtain ⟨st, hstd, hst⟩ := write_unfold jb data
  rw [hst, contents_set_state]
  have hwl : wadd 2 data.length = 2 + data.length := wadd_small (by omega)
  rw [hh]
  simp only [if_true, hwl]
  rw [if_neg (by rw [wsub_of_le hd (by omega)]; omega)]
  exact contents_writeStore_header jb data ⟨hC, hW, hr, hw, hd, hrel⟩ hh hfit

/-- C10 witness: a 3-byte record written into the empty 16-byte header-mode
ring. -/
theorem with_header_accepts_any_length_witness :
    (jitter_buffer_write jbHdr0 [9, 8, 7]).1 = EspErr.ok ∧
    contents (jitter_buffer_write jbHdr0 [9, 8, 7]).2.1 =
      contents jbHdr0 ++ [([9, 8, 7] : List Nat).length / 256 % 256,
        ([9, 8, 7] : List Nat).length % 256] ++
        ([9, 8, 7] : List Nat).map (fun b => b % 256) ∧
    ([9, 8, 7] : List Nat).length / 256 % 256 * 256 +
        ([9, 8, 7] : List Nat).length % 256 =
      ([9, 8, 7] : List Nat).length % 2 ^ 16 ∧
    (2 ^ 16 ≤ ([9, 8, 7] : List Nat).length →
      ([9, 8, 7] : List Nat).length % 2 ^ 16 ≠ ([9, 8, 7] : List Nat).length) :=
  with_header_accepts_any_length jbHdr0 [9, 8, 7]
    ⟨by decide, by decide, by decide, by decide, by decide, by decide⟩ rfl (by decide)

/-! ### C5 -/

/-- Advancing `r` by `n` and shrinking `d` by `n` drops `n` bytes from the
front of the ring contents. -/
theorem contents_shift (jb jbn : JB) (n : Nat)
    (hbuf : jbn.buffer = jb.buffer) (hbs : jbn.buffer_size = jb.buffer_size)
    (hr : jbn.read_pos = (jb.read_pos + n) % jb.buffer_size)
    (hd : jbn.data_size = jb.data_size - n) :
    contents jbn = (contents jb).drop n := by
  apply List.ext_getElem
  · simp [contents, hd]
  intro i h1 h2
  simp only [contents, List.getElem_map, List.getElem_range, List.getElem_drop,
    hbuf, hbs, hr, hd]
  rw [Nat.mod_add_mod]
  congr 2
  omega

/-- C5: in fixed mode, an overflowing write advances `r` by exactly
`wire_len − free` (mod `C`), decrements `d` by the same amount, increments
`overrun_count` by one, then stores the payload; concretely, writing three
frames into a two-frame ring loses only the oldest frame — the two most
recent payloads survive. -/
theorem fixed_overflow_discard :
    (∀ (jb : JB) (data : List Nat), Inv jb → jb.config.with_header = false →
      jb.buffer_size - jb.data_size < data.length → data.length ≤ jb.buffer_size →
      (jitter_buffer_write jb data).2.1.read_pos =
        (jb.read_pos + (data.length - (jb.buffer_size - jb.data_size))) %
          jb.buffer_size ∧
      (jitter_buffer_write jb data).2.1.data_size =
        jb.data_size - (data.length - (jb.buffer_size - jb.data_size)) +
          data.length ∧
      (jitter_buffer_write jb data).2.1.overrun_count =
        (jb.overrun_count + 1) % 2 ^ 32 ∧
      contents (jitter_buffer_write jb data).2.1 =
        (contents jb).drop (data.length - (jb.buffer_size - jb.data_size)) ++
          data.map (fun b => b % 256)) ∧
    ((jitter_buffer_write (jitter_buffer_write (jitter_buffer_write jbFix0
        [1, 1]).2.1 [2, 2]).2.1 [3, 3]).2.1.overrun_count = 1 ∧
     contents (jitter_buffer_write (jitter_buffer_write (jitter_buffer_write jbFix0
        [1, 1]).2.1 [2, 2]).2.1 [3, 3]).2.1 = [2, 2, 3, 3]) := by
  constructor
  · intro jb data hI hh hov hlen
    obtain ⟨hC, hW, hr, hw, hd, hrel⟩ := hI
    have hws : wsub jb.buffer_size jb.data_size = jb.buffer_size - jb.data_size :=
      wsub_of_le hd (by omega)
    obtain ⟨st, hstd, hst⟩ := write_unfold jb data
    rw [hst]
    simp only [hh, Bool.false_eq_true, if_false, hws, if_pos hov]
    have hjb1 : writeDiscard jb data.length =
        { jb with
          read_pos := (jb.read_pos + (data.length - (jb.buffer_size - jb.data_size))) %
            jb.buffer_size,
          data_size := jb.data_size - (data.length - (jb.buffer_size - jb.data_size)),
          overrun_count := (jb.overrun_count + 1) % 2 ^ 32 } := by
      simp only [writeDiscard, hh, Bool.false_eq_true, if_false, hws]
      rw [wadd_small (by omega), wsub_of_le (by omega) (by omega)]
    rw [hjb1]
    set dis := data.length - (jb.buffer_size - jb.data_size) with hdis
    have hdisd : dis ≤ jb.data_size := by omega
    set jb1 : JB :=
      { jb with
        read_pos := (jb.read_pos + dis) % jb.buffer_size,
        data_size := jb.data_size - dis,
        overrun_count := (jb.overrun_count + 1) % 2 ^ 32 } with hjb1d
    have hI1 : Inv jb1 := by
      refine ⟨hC, hW, Nat.mod_lt _ hC, hw,
        by show jb.data_size - dis ≤ jb.buffer_size; omega, ?_⟩
      show ((jb.read_pos + dis) % jb.buffer_size + (jb.data_size - dis)) %
          jb.buffer_size = jb.write_pos
      rw [Nat.mod_add_mod,
        show jb.read_pos + dis + (jb.data_size - dis) = jb.read_pos + jb.data_size
          from by omega, hrel]
    have hfit1 : jb1.data_size + data.length ≤ jb1.buffer_size := by
      show jb.data_size - dis + data.length ≤ jb.buffer_size
      omega
    refine ⟨?_, ?_, ?_, ?_⟩
    · show (writeStore jb1 data).read_pos = (jb.read_pos + dis) % jb.buffer_size
      simp only [writeStore, hh, Bool.false_eq_true, if_false, s_ring_write_read_pos]
    · show (writeStore jb1 data).data_size = jb.data_size - dis + data.length
      simp only [writeStore, hh, Bool.false_eq_true, if_false]
      rw [s_ring_write_data_size jb1 data (by show jb.data_size - dis + _ < W; omega)]
    · show (writeStore jb1 data).overrun_count = (jb.overrun_count + 1) % 2 ^ 32
      simp only [writeStore, hh, Bool.false_eq_true, if_false, s_ring_write_overrun_count]
    · show contents (writeStore jb1 data) = (contents jb).drop dis ++
        data.map (fun b => b % 256)
      rw [contents_writeStore_fixed jb1 data hI1 hh hfit1,
        contents_shift jb jb1 dis rfl rfl rfl rfl]
  · constructor
    · rfl
    · decide

/-- C5 witness: a 3-byte write into the full 4-byte ring. -/
theorem fixed_overflow_discard_witness :
    (jitter_buffer_write jbFixFull [5, 5, 5]).2.1.read_pos =
      (jbFixFull.read_pos + (([5, 5, 5] : List Nat).length -
        (jbFixFull.buffer_size - jbFixFull.data_size))) % jbFixFull.buffer_size ∧
    (jitter_buffer_write jbFixFull [5, 5, 5]).2.1.data_size =
      jbFixFull.data_size - (([5, 5, 5] : List Nat).length -
        (jbFixFull.buffer_size - jbFixFull.data_size)) + ([5, 5, 5] : List Nat).length ∧
    (jitter_buffer_write jbFixFull [5, 5, 5]).2.1.overrun_count =
      (jbFixFull.overrun_count + 1) % 2 ^ 32 ∧
    contents (jitter_buffer_write jbFixFull [5, 5, 5]).2.1 =
      (contents jbFixFull).drop (([5, 5, 5] : List Nat).length -
        (jbFixFull.buffer_size - jbFixFull.data_size)) ++
        ([5, 5, 5] : List Nat).map (fun b => b % 256) :=
  fixed_overflow_discard.1 jbFixFull [5, 5, 5]
    ⟨by decide, by decide, by decide, by decide, by decide, by decide⟩
    rfl (by decide) (by decide)

/-! ### Field lemmas for the read path -/

theorem skipChunks_fields : ∀ (jb : JB) (left : Nat),
    (skipChunks jb left).state = jb.state ∧
    (skipChunks jb left).config = jb.config ∧
    (skipChunks jb left).buffer_size = jb.buffer_size ∧
    (skipChunks jb left).write_pos = jb.write_pos ∧
    (skipChunks jb left).buffer = jb.buffer ∧
    (skipChunks jb left).underrun_count = jb.underrun_count ∧
    (skipChunks jb left).overrun_count = jb.overrun_count ∧
    (skipChunks jb left).total_written = jb.total_written := by
  intro jb left
  induction jb, left using skipChunks.induct with
  | case1 jb =>
    rw [skipChunks]
    simp
  | case2 jb left h0 chunk hc =>
    rw [skipChunks]
    simp only [chunk] at hc
    simp [h0, hc]
  | case3 jb left h0 chunk hc ih =>
    rw [skipChunks]
    simp only [chunk] at hc ih
    simp only [if_neg h0, dif_neg hc]
    simpa using ih

@[simp] theorem skipChunks_state (jb : JB) (left : Nat) :
    (skipChunks jb left).state = jb.state := (skipChunks_fields jb left).1

@[simp] theorem skipChunks_config (jb : JB) (left : Nat) :
    (skipChunks jb left).config = jb.config := (skipChunks_fields jb left).2.1

@[simp] theorem skipChunks_buffer_size (jb : JB) (left : Nat) :
    (skipChunks jb left).buffer_size = jb.buffer_size := (skipChunks_fields jb left).2.2.1

@[simp] theorem skipChunks_write_pos (jb : JB) (left : Nat) :
    (skipChunks jb left).write_pos = jb.write_pos := (skipChunks_fields jb left).2.2.2.1

@[simp] theorem skipChunks_buffer (jb : JB) (left : Nat) :
    (skipChunks jb left).buffer = jb.buffer := (skipChunks_fields jb left).2.2.2.2.1

@[simp] theorem skipChunks_underrun_count (jb : JB) (left : Nat) :
    (skipChunks jb left).underrun_count = jb.underrun_count :=
  (skipChunks_fields jb left).2.2.2.2.2.1

@[simp] theorem skipChunks_overrun_count (jb : JB) (left : Nat) :
    (skipChunks jb left).overrun_count = jb.overrun_count :=
  (skipChunks_fields jb left).2.2.2.2.2.2.1

@[simp] theorem skipChunks_total_written (jb : JB) (left : Nat) :
    (skipChunks jb left).total_written = jb.total_written :=
  (skipChunks_fields jb left).2.2.2.2.2.2.2

@[simp] theorem readData_state (jb : JB) (len : Nat) (evs : List JEvent) :
    (readData jb len evs).jb.state = jb.state := by
  unfold readData
  dsimp only
  repeat' split
  all_goals simp

@[simp] theorem readData_events (jb : JB) (len : Nat) (evs : List JEvent) :
    (readData jb len evs).events = evs := by
  unfold readData
  dsimp only
  repeat' split
  all_goals simp

@[simp] theorem readData_underrun_count (jb : JB) (len : Nat) (evs : List JEvent) :
    (readData jb len evs).jb.underrun_count = jb.underrun_count := by
  unfold readData
  dsimp only
  repeat' split
  all_goals simp

@[simp] theorem readData_overrun_count (jb : JB) (len : Nat) (evs : List JEvent) :
    (readData jb len evs).jb.overrun_count = jb.overrun_count := by
  unfold readData
  dsimp only
  repeat' split
  all_goals simp

@[simp] theorem readData_config (jb : JB) (len : Nat) (evs : List JEvent) :
    (readData jb len evs).jb.config = jb.config := by
  unfold readData
  dsimp only
  repeat' split
  all_goals simp

@[simp] theorem process_events (jb : JB) :
    (s_jitter_buffer_process jb).2.1 = (s_jitter_buffer_read jb jb.config.frame_size).events := by
  unfold s_jitter_buffer_process
  dsimp only
  repeat' split
  all_goals rfl

@[simp] theorem process_jb (jb : JB) :
    (s_jitter_buffer_process jb).2.2 = (s_jitter_buffer_read jb jb.config.frame_size).jb := by
  unfold s_jitter_buffer_process
  dsimp only
  repeat' split
  all_goals rfl

theorem process_out (jb : JB) :
    (s_jitter_buffer_process jb).1 =
      (if 0 < (s_jitter_buffer_read jb jb.config.frame_size).ret then
        TickOut.dataOut (s_jitter_buffer_read jb jb.config.frame_size).bytes
      else if jb.config.output_silence_on_empty then
        TickOut.silenceOut (List.replicate jb.config.frame_size 0)
      else TickOut.noCall) := by
  unfold s_jitter_buffer_process
  dsimp only
  repeat' split
  all_goals rfl

@[simp] theorem frameCount_set_state (jb : JB) (st : JState) :
    frameCount { jb with state := st } = frameCount jb := rfl

/-- If a read leaves the buffer in a non-PLAYING state, it was a state-gate
return: the ring is untouched and the return value is 0. -/
theorem s_jitter_buffer_read_not_playing (jb : JB) (len : Nat)
    (hst : jb.state ≠ JState.idle)
    (h : (s_jitter_buffer_read jb len).jb.state ≠ JState.playing) :
    (s_jitter_buffer_read jb len).jb.read_pos = jb.read_pos ∧
    (s_jitter_buffer_read jb len).jb.data_size = jb.data_size ∧
    (s_jitter_buffer_read jb len).jb.total_read = jb.total_read ∧
    (s_jitter_buffer_read jb len).ret = 0 := by
  unfold s_jitter_buffer_read readAfterHighGate at *
  dsimp only at *
  cases hjs : jb.state with
  | idle => exact absurd hjs hst
  | playing =>
    rw [if_neg (by simp [hjs])] at h ⊢
    by_cases hlw : frameCount jb < jb.config.low_water
    · rw [if_pos (by simp [hjs, hlw])]
      exact ⟨rfl, rfl, rfl, rfl⟩
    · rw [if_neg (by simp [hjs, hlw])] at h
      exact absurd (by simp [hjs]) h
  | buffering =>
    rw [if_pos (by simp [hjs])] at h ⊢
    by_cases hhw : jb.config.high_water ≤ frameCount jb
    · rw [if_pos hhw] at h ⊢
      by_cases hlw : frameCount jb < jb.config.low_water
      · rw [if_pos (by simp [hlw])]
        exact ⟨rfl, rfl, rfl, rfl⟩
      · rw [if_neg (by simp [hlw])] at h
        exact absurd (by simp) h
    · rw [if_neg hhw]
      exact ⟨rfl, rfl, rfl, rfl⟩
  | underrun =>
    rw [if_pos (by simp [hjs])] at h ⊢
    by_cases hhw : jb.config.high_water ≤ frameCount jb
    · rw [if_pos hhw] at h ⊢
      by_cases hlw : frameCount jb < jb.config.low_water
      · rw [if_pos (by simp [hlw])]
        exact ⟨rfl, rfl, rfl, rfl⟩
      · rw [if_neg (by simp [hlw])] at h
        exact absurd (by simp) h
    · rw [if_neg hhw]
      exact ⟨rfl, rfl, rfl, rfl⟩

/-! ### C7 -/

/-- C7: on a pump tick in PLAYING with `fc < low_water` the state flips to
UNDERRUN, `underrun_count` is bumped by one (as a `uint32_t`), exactly one
UNDERRUN event is posted, and the tick consumes nothing; with
`fc ≥ low_water` the state stays PLAYING, no UNDERRUN event is posted, and
`underrun_count` is unchanged. -/
theorem tick_underrun_transition (jb : JB) (hobs : jb.config.event_loop = true)
    (hst : jb.state = JState.playing) :
    (frameCount jb < jb.config.low_water →
      (s_jitter_buffer_process jb).2.2.state = JState.underrun ∧
      (s_jitter_buffer_process jb).2.2.underrun_count =
        (jb.underrun_count + 1) % 2 ^ 32 ∧
      (s_jitter_buffer_process jb).2.1 = [JEvent.underrun] ∧
      (s_jitter_buffer_process jb).2.2.read_pos = jb.read_pos ∧
      (s_jitter_buffer_process jb).2.2.data_size = jb.data_size ∧
      (s_jitter_buffer_process jb).2.2.total_read = jb.total_read) ∧
    (jb.config.low_water ≤ frameCount jb →
      (s_jitter_buffer_process jb).2.2.state = JState.playing ∧
      JEvent.underrun ∉ (s_jitter_buffer_process jb).2.1 ∧
      (s_jitter_buffer_process jb).2.2.underrun_count = jb.underrun_count) := by
  rw [process_events, process_jb] at *
  unfold s_jitter_buffer_read
  dsimp only
  rw [if_neg (by simp [hst])]
  unfold readAfterHighGate
  constructor
  · intro hlw
    rw [if_pos (by simp [hst, hlw])]
    simp [s_post_state_event, hobs]
  · intro hlw
    rw [if_neg (by simp [hst]; omega)]
    simp [hst]

/-- C7 witness: `tick_underrun_transition` at a concrete PLAYING state. -/
theorem tick_underrun_transition_witness :
    (frameCount jbFixFull < jbFixFull.config.low_water →
      (s_jitter_buffer_process jbFixFull).2.2.state = JState.underrun ∧
      (s_jitter_buffer_process jbFixFull).2.2.underrun_count =
        (jbFixFull.underrun_count + 1) % 2 ^ 32 ∧
      (s_jitter_buffer_process jbFixFull).2.1 = [JEvent.underrun] ∧
      (s_jitter_buffer_process jbFixFull).2.2.read_pos = jbFixFull.read_pos ∧
      (s_jitter_buffer_process jbFixFull).2.2.data_size = jbFixFull.data_size ∧
      (s_jitter_buffer_process jbFixFull).2.2.total_read = jbFixFull.total_read) ∧
    (jbFixFull.config.low_water ≤ frameCount jbFixFull →
      (s_jitter_buffer_process jbFixFull).2.2.state = JState.playing ∧
      JEvent.underrun ∉ (s_jitter_buffer_process jbFixFull).2.1 ∧
      (s_jitter_buffer_process jbFixFull).2.2.underrun_count =
        jbFixFull.underrun_count) :=
  tick_underrun_transition jbFixFull rfl rfl

/-! ### C8 -/

/-- C8: a pump tick (in any non-IDLE state, the only states a running pump
can observe) consumes from the ring only if the post-transition state is
PLAYING; when the post-transition state is BUFFERING or UNDERRUN the tick
leaves `r`, `d`, `total_read` unchanged and the callback either receives a
zeroed scratch frame (silence enabled) or is not invoked at all. -/
theorem tick_consumes_only_when_playing (jb : JB) (hst : jb.state ≠ JState.idle) :
    ((s_jitter_buffer_process jb).2.2.state = JState.buffering ∨
      (s_jitter_buffer_process jb).2.2.state = JState.underrun →
      (s_jitter_buffer_process jb).2.2.read_pos = jb.read_pos ∧
      (s_jitter_buffer_process jb).2.2.data_size = jb.data_size ∧
      (s_jitter_buffer_process jb).2.2.total_read = jb.total_read ∧
      (s_jitter_buffer_process jb).1 =
        (if jb.config.output_silence_on_empty then
          TickOut.silenceOut (List.replicate jb.config.frame_size 0)
        else TickOut.noCall)) ∧
    ((s_jitter_buffer_process jb).2.2.read_pos ≠ jb.read_pos ∨
      (s_jitter_buffer_process jb).2.2.data_size ≠ jb.data_size ∨
      (s_jitter_buffer_process jb).2.2.total_read ≠ jb.total_read →
      (s_jitter_buffer_process jb).2.2.state = JState.playing) := by
  constructor
  · intro hns
    have hnp : (s_jitter_buffer_read jb jb.config.frame_size).jb.state ≠ JState.playing := by
      rw [process_jb] at hns
      rcases hns with h | h <;> rw [h] <;> simp
    obtain ⟨h1, h2, h3, h4⟩ := s_jitter_buffer_read_not_playing jb _ hst hnp
    rw [process_jb, process_out, h4]
    exact ⟨h1, h2, h3, by simp⟩
  · intro hch
    by_contra hnp
    rw [process_jb] at hch hnp
    obtain ⟨h1, h2, h3, _⟩ := s_jitter_buffer_read_not_playing jb _ hst hnp
    rcases hch with h | h | h <;> exact h (by rw [← process_jb] at *; assumption)

/-- C8 witness: `tick_consumes_only_when_playing` at a concrete PLAYING
state. -/
theorem tick_consumes_only_when_playing_witness :
    ((s_jitter_buffer_process jbFixFull).2.2.state = JState.buffering ∨
      (s_jitter_buffer_process jbFixFull).2.2.state = JState.underrun →
      (s_jitter_buffer_process jbFixFull).2.2.read_pos = jbFixFull.read_pos ∧
      (s_jitter_buffer_process jbFixFull).2.2.data_size = jbFixFull.data_size ∧
      (s_jitter_buffer_process jbFixFull).2.2.total_read = jbFixFull.total_read ∧
      (s_jitter_buffer_process jbFixFull).1 =
        (if jbFixFull.config.output_silence_on_empty then
          TickOut.silenceOut (List.replicate jbFixFull.config.frame_size 0)
        else TickOut.noCall)) ∧
    ((s_jitter_buffer_process jbFixFull).2.2.read_pos ≠ jbFixFull.read_pos ∨
      (s_jitter_buffer_process jbFixFull).2.2.data_size ≠ jbFixFull.data_size ∨
      (s_jitter_buffer_process jbFixFull).2.2.total_read ≠ jbFixFull.total_read →
      (s_jitter_buffer_process jbFixFull).2.2.state = JState.playing) :=
  tick_consumes_only_when_playing jbFixFull (by decide)

/-! ### C6 -/

theorem map_range_drop {A : Type} (f : Nat → A) (n k : Nat) :
    ((List.range n).map f).drop k = (List.range (n - k)).map (fun i => f (k + i)) := by
  apply List.ext_getElem
  · simp
  intro i h1 h2
  simp only [List.getElem_drop, List.getElem_map, List.getElem_range]

theorem map_range_two_split {A : Type} (f : Nat → A) (n : Nat) (hn : 2 ≤ n) :
    (List.range n).map f = f 0 :: f 1 :: (List.range (n - 2)).map (fun i => f (i + 2)) := by
  apply List.ext_getElem
  · simp; omega
  intro i h1 h2
  cases i with
  | zero => simp
  | succ j =>
    cases j with
    | zero => simp
    | succ k => simp

/-- The modular in-place walk of the source equals the linear walk of the
spec over the extracted bytes. -/
theorem frameWalk_eq_specFrameWalk (C : Nat) (buf : Nat → Nat) (r : Nat) :
    ∀ offset remaining, frameWalk C buf r offset remaining =
      specFrameWalk C ((List.range remaining).map fun i => buf ((r + offset + i) % C)) := by
  intro offset remaining
  induction offset, remaining using frameWalk.induct C buf r with
  | case1 offset remaining h2 b0 b1 L hL =>
    simp only [b0, b1, L] at hL
    rw [frameWalk, dif_pos h2, map_range_two_split _ _ h2]
    dsimp only
    simp only [Nat.add_zero]
    rw [specFrameWalk]
    simp [hL]
  | case2 offset remaining h2 b0 b1 L hL hrem =>
    simp only [b0, b1, L] at hL hrem
    rw [frameWalk, dif_pos h2, map_range_two_split _ _ h2]
    dsimp only
    simp only [Nat.add_zero]
    rw [specFrameWalk]
    rw [if_neg hL, if_neg hL, if_pos hrem, if_pos (by simp; omega)]
  | case3 offset remaining h2 b0 b1 L hL hrem ih =>
    simp only [b0, b1, L] at hL hrem ih
    rw [frameWalk, dif_pos h2, map_range_two_split _ _ h2]
    dsimp only
    simp only [Nat.add_zero]
    rw [specFrameWalk]
    rw [if_neg hL, if_neg hL, if_neg hrem, if_neg (by simp; omega), ih]
    refine congrArg (fun l => 1 + specFrameWalk C l) ?_
    rw [map_range_drop]
    apply List.ext_getElem
    · simp; omega
    intro i h1 h2
    simp only [List.getElem_map, List.getElem_range]
    congr 2
    omega
  | case4 offset remaining h2 =>
    rw [frameWalk, dif_neg h2]
    have hr01 : remaining = 0 ∨ remaining = 1 := by omega
    rcases hr01 with h | h
    · subst h; simp [specFrameWalk]
    · subst h
      rw [show List.range 1 = [0] from rfl, specFrameWalk.eq_def]
      rfl

/-- C6: in `with_header` mode the frame count equals the spec's record walk
over the ring contents; in fixed mode it equals `d / F`. -/
theorem frame_count_spec (jb : JB) :
    (jb.config.with_header = true →
      frameCount jb = specFrameWalk jb.buffer_size (contents jb)) ∧
    (jb.config.with_header = false →
      frameCount jb = jb.data_size / jb.config.frame_size) := by
  constructor
  · intro hh
    simp only [frameCount, hh, if_true, s_get_frame_count_with_header, contents]
    rw [frameWalk_eq_specFrameWalk]
    simp
  · intro hh
    simp [frameCount, hh]

/-- C6 witness: the record walk at a concrete one-record ring, and the
fixed-mode division at a concrete fixed-mode state. -/
theorem frame_count_spec_witness :
    frameCount jbHdrFull = specFrameWalk jbHdrFull.buffer_size (contents jbHdrFull) ∧
    frameCount jbFixFull = jbFixFull.data_size / jbFixFull.config.frame_size :=
  ⟨(frame_count_spec jbHdrFull).1 rfl, (frame_count_spec jbFixFull).2 rfl⟩

/-! ### C4 -/

@[simp] theorem encodeRecords_nil : encodeRecords [] = [] := rfl

theorem encodeRecords_cons (p : List Nat) (ps : List (List Nat)) :
    encodeRecords (p :: ps) = encodeRecord p ++ encodeRecords ps := by
  simp [encodeRecords]

theorem encodeRecord_length (p : List Nat) : (encodeRecord p).length = 2 + p.length := by
  simp [encodeRecord]
  omega

theorem encodeRecords_cons_length (p : List Nat) (ps : List (List Nat)) :
    (encodeRecords (p :: ps)).length = 2 + p.length + (encodeRecords ps).length := by
  rw [encodeRecords_cons]
  simp [encodeRecord_length]

theorem dropRecords_length_le (C wlen : Nat) (ps : List (List Nat)) :
    (encodeRecords (dropRecordsUntilFit C wlen ps)).length ≤ (encodeRecords ps).length := by
  induction ps with
  | nil => simp [dropRecordsUntilFit]
  | cons p rest ih =>
    rw [dropRecordsUntilFit]
    split
    · exact le_trans ih (by rw [encodeRecords_cons_length]; omega)
    · exact le_refl _

/-- After the spec-side whole-record discard, the new record fits. -/
theorem dropRecords_fits (C wlen : Nat) (hw : 0 < wlen) (hwC : wlen ≤ C)
    (ps : List (List Nat)) (hps : (encodeRecords ps).length ≤ C) :
    (encodeRecords (dropRecordsUntilFit C wlen ps)).length + wlen ≤ C := by
  induction ps with
  | nil => simpa [dropRecordsUntilFit] using hwC
  | cons p rest ih =>
    rw [dropRecordsUntilFit]
    split
    · next h =>
      refine ih ?_
      rw [encodeRecords_cons_length] at hps
      omega
    · next h => omega

theorem contents_getD (jb : JB) (i : Nat) (hi : i < jb.data_size) :
    (contents jb).getD i 0 = jb.buffer ((jb.read_pos + i) % jb.buffer_size) := by
  rw [List.getD_eq_getElem _ _ (by simpa [contents_length] using hi)]
  simp [contents]

/-- On a ring holding well-formed records, the whole-record discard loop of
`jitter_buffer_write` computes exactly the spec's `dropRecordsUntilFit`. -/
theorem discardLoop_records (wlen : Nat) :
    ∀ (ps : List (List Nat)) (jb : JB), Inv jb →
      contents jb = encodeRecords ps →
      (∀ p ∈ ps, GoodPayload jb.buffer_size p) →
      discardLoop jb.buffer_size jb.buffer jb.read_pos jb.data_size wlen =
        ((jb.read_pos + (jb.data_size -
            (encodeRecords (dropRecordsUntilFit jb.buffer_size wlen ps)).length)) %
          jb.buffer_size,
         (encodeRecords (dropRecordsUntilFit jb.buffer_size wlen ps)).length) := by
  intro ps
  induction ps with
  | nil =>
    intro jb hI hc hgood
    obtain ⟨hC, hW, hr, hw, hd, hrel⟩ := hI
    have hd0 : jb.data_size = 0 := by
      have h := congrArg List.length hc
      simpa [contents_length] using h
    rw [discardLoop, dif_neg (by omega)]
    simp [dropRecordsUntilFit, hd0, Nat.mod_eq_of_lt hr]
  | cons p rest ih =>
    intro jb hI hc hgood
    obtain ⟨hC, hW, hr, hw, hd, hrel⟩ := hI
    have hlen : jb.data_size = (encodeRecords (p :: rest)).length := by
      have h := congrArg List.length hc
      simpa [contents_length] using h
    have hlen2 : jb.data_size = 2 + p.length + (encodeRecords rest).length := by
      rw [hlen, encodeRecords_cons_length]
    have hgp : GoodPayload jb.buffer_size p := hgood p (List.mem_cons_self _ _)
    obtain ⟨hgp1, hgp2⟩ := hgp
    by_cases hg : wsub jb.buffer_size jb.data_size < wlen ∧ 2 ≤ jb.data_size
    · -- the loop takes a step: parse the head record
      have hb0 : jb.buffer jb.read_pos = p.length / 256 % 256 := by
        have h := contents_getD jb 0 (by omega)
        rw [hc] at h
        simp only [Nat.add_zero, Nat.mod_eq_of_lt hr] at h
        rw [← h]
        simp [encodeRecords_cons, encodeRecord]
      have hb1 : jb.buffer ((jb.read_pos + 1) % jb.buffer_size) = p.length % 256 := by
        have h := contents_getD jb 1 (by omega)
        rw [hc] at h
        rw [← h]
        simp [encodeRecords_cons, encodeRecord]
      have hL : jb.buffer jb.read_pos * 256 +
          jb.buffer ((jb.read_pos + 1) % jb.buffer_size) = p.length := by
        rw [hb0, hb1]
        omega
      rw [discardLoop, dif_pos hg]
      dsimp only
      rw [hL]
      rw [if_neg (by omega), if_neg (by omega)]
      -- the loop recurses on the state with the head record removed
      set jbn : JB :=
        { jb with read_pos := (jb.read_pos + 2 + p.length) % jb.buffer_size,
                  data_size := jb.data_size - (2 + p.length) } with hjbn
      have hIn : Inv jbn := by
        refine ⟨hC, hW, Nat.mod_lt _ hC, hw,
          by show jb.data_size - (2 + p.length) ≤ jb.buffer_size; omega, ?_⟩
        show ((jb.read_pos + 2 + p.length) % jb.buffer_size +
            (jb.data_size - (2 + p.length))) % jb.buffer_size = jb.write_pos
        rw [Nat.mod_add_mod, show jb.read_pos + 2 + p.length +
            (jb.data_size - (2 + p.length)) = jb.read_pos + jb.data_size from by omega,
          hrel]
      have hcn : contents jbn = encodeRecords rest := by
        have hsh : contents jbn = (contents jb).drop (2 + p.length) := by
          apply contents_shift jb jbn (2 + p.length) rfl rfl
          · show (jb.read_pos + 2 + p.length) % jb.buffer_size =
              (jb.read_pos + (2 + p.length)) % jb.buffer_size
            congr 1
            omega
          · rfl
        rw [hsh, hc, encodeRecords_cons,
          show 2 + p.length = (encodeRecord p).length from (encodeRecord_length p).symm,
          List.drop_left]
      have hgn : ∀ q ∈ rest, GoodPayload jbn.buffer_size q := by
        intro q hq
        exact hgood q (List.mem_cons_of_mem _ hq)
      have hstep := ih jbn hIn hcn hgn
      rw [show jbn.buffer_size = jb.buffer_size from rfl,
          show jbn.buffer = jb.buffer from rfl] at hstep
      rw [show jbn.read_pos = (jb.read_pos + 2 + p.length) % jb.buffer_size from rfl,
          show jbn.data_size = jb.data_size - (2 + p.length) from rfl] at hstep
      rw [hstep]
      have hcond : jb.buffer_size - (encodeRecords (p :: rest)).length < wlen := by
        have hws : wsub jb.buffer_size jb.data_size =
            jb.buffer_size - jb.data_size := wsub_of_le hd (by omega)
        rw [← hlen]
        rw [hws] at hg
        exact hg.1
      have hdrop : dropRecordsUntilFit jb.buffer_size wlen (p :: rest) =
          dropRecordsUntilFit jb.buffer_size wlen rest := by
        rw [dropRecordsUntilFit, if_pos hcond]
      rw [hdrop]
      have hle := dropRecords_length_le jb.buffer_size wlen rest
      simp only [Prod.mk.injEq]
      refine ⟨?_, trivial⟩
      rw [Nat.mod_add_mod]
      have harg : jb.read_pos + 2 + p.length +
          (jb.data_size - (2 + p.length) -
            (encodeRecords (dropRecordsUntilFit jb.buffer_size wlen rest)).length) =
          jb.read_pos + (jb.data_size -
            (encodeRecords (dropRecordsUntilFit jb.buffer_size wlen rest)).length) := by
        omega
      rw [harg]
    · -- the loop does not run: the record already fits (or `d < 2`)
      rw [discardLoop, dif_neg hg]
      have hws : wsub jb.buffer_size jb.data_size =
          jb.buffer_size - jb.data_size := wsub_of_le hd (by omega)
      have hcond : ¬ (jb.buffer_size - (encodeRecords (p :: rest)).length < wlen) := by
        rw [hws] at hg
        rw [← hlen]
        omega
      have hdrop : dropRecordsUntilFit jb.buffer_size wlen (p :: rest) = p :: rest := by
        rw [dropRecordsUntilFit, if_neg hcond]
      rw [hdrop, ← hlen]
      simp [Nat.mod_eq_of_lt hr]

theorem encodeRecords_drop_to_suffix (C w : Nat) (ps : List (List Nat)) :
    (encodeRecords ps).drop ((encodeRecords ps).length -
        (encodeRecords (dropRecordsUntilFit C w ps)).length) =
      encodeRecords (dropRecordsUntilFit C w ps) := by
  induction ps with
  | nil => simp [dropRecordsUntilFit]
  | cons p rest ih =>
    rw [dropRecordsUntilFit]
    split
    · have hle := dropRecords_length_le C w rest
      rw [encodeRecords_cons]
      have harith : (encodeRecord p ++ encodeRecords rest).length -
          (encodeRecords (dropRecordsUntilFit C w rest)).length =
          (encodeRecord p).length + ((encodeRecords rest).length -
            (encodeRecords (dropRecordsUntilFit C w rest)).length) := by
        simp only [List.length_append, encodeRecord_length]
        omega
      rw [harith, List.drop_append]
      exact ih
    · simp

theorem writeDiscard_overrun (jb : JB) (wlen : Nat) :
    (writeDiscard jb wlen).overrun_count = (jb.overrun_count + 1) % 2 ^ 32 := by
  unfold writeDiscard
  dsimp only
  repeat' split
  all_goals rfl

/-- C4: `with_header` overflow.  (1) On a ring of well-formed records, an
overflowing write discards whole records from the head exactly as the
spec's `dropRecordsUntilFit` loop prescribes, then appends the new record;
(2) if the length word at the head is implausible (`L > C/2`), the
whole-record loop aborts at once and exactly the residual shortfall is
discarded byte-granularly; (3) `overrun_count` rises by exactly one per
overflowing write, however many records were discarded. -/
theorem with_header_overflow_discard :
    (∀ (jb : JB) (data : List Nat) (ps : List (List Nat)), Inv jb →
      jb.config.with_header = true →
      contents jb = encodeRecords ps →
      (∀ p ∈ ps, GoodPayload jb.buffer_size p) →
      jb.buffer_size - jb.data_size < 2 + data.length →
      2 + data.length ≤ jb.buffer_size →
      contents (jitter_buffer_write jb data).2.1 =
        encodeRecords (dropRecordsUntilFit jb.buffer_size (2 + data.length) ps) ++
          (data.length / 256 % 256 :: data.length % 256 ::
            data.map (fun b => b % 256)) ∧
      (jitter_buffer_write jb data).2.1.overrun_count =
        (jb.overrun_count + 1) % 2 ^ 32) ∧
    (∀ (jb : JB) (wlen : Nat), Inv jb →
      jb.config.with_header = true →
      2 ≤ jb.data_size →
      jb.buffer_size / 2 <
        jb.buffer jb.read_pos * 256 + jb.buffer ((jb.read_pos + 1) % jb.buffer_size) →
      jb.buffer_size - jb.data_size < wlen → wlen ≤ jb.buffer_size →
      (writeDiscard jb wlen).read_pos =
        (jb.read_pos + (wlen - (jb.buffer_size - jb.data_size))) % jb.buffer_size ∧
      (writeDiscard jb wlen).data_size =
        jb.data_size - (wlen - (jb.buffer_size - jb.data_size)) ∧
      (writeDiscard jb wlen).overrun_count = (jb.overrun_count + 1) % 2 ^ 32) ∧
    (∀ (jb : JB) (data : List Nat), Inv jb →
      jb.config.with_header = true →
      data.length + jb.buffer_size + 2 < W →
      wsub jb.buffer_size jb.data_size < wadd 2 data.length →
      (jitter_buffer_write jb data).2.1.overrun_count =
        (jb.overrun_count + 1) % 2 ^ 32) := by
  refine ⟨?_, ?_, ?_⟩
  · -- (1) record-granular discard then append
    intro jb data ps hI hh hc hgood hov hwC
    obtain ⟨hC, hW, hr, hw, hd, hrel⟩ := hI
    have hdlen : jb.data_size = (encodeRecords ps).length := by
      have h := congrArg List.length hc
      simpa [contents_length] using h
    have hle := dropRecords_length_le jb.buffer_size (2 + data.length) ps
    obtain ⟨st, hstd, hst⟩ := write_unfold jb data
    rw [hh] at hst
    simp only [if_true] at hst
    rw [wadd_small (show 2 + data.length < W from by omega)] at hst
    rw [if_pos (by rw [wsub_of_le hd (by omega)]; omega)] at hst
    have hloop := discardLoop_records (2 + data.length) ps jb
      ⟨hC, hW, hr, hw, hd, hrel⟩ hc hgood
    have hfits := dropRecords_fits jb.buffer_size (2 + data.length) (by omega)
      hwC ps (by omega)
    set lNew := (encodeRecords
      (dropRecordsUntilFit jb.buffer_size (2 + data.length) ps)).length with hlNew
    have hjb1 : writeDiscard jb (2 + data.length) =
        { jb with
          read_pos := (jb.read_pos + (jb.data_size - lNew)) % jb.buffer_size,
          data_size := lNew,
          overrun_count := (jb.overrun_count + 1) % 2 ^ 32 } := by
      simp only [writeDiscard, hh, if_true, hloop]
      rw [if_neg (by rw [wsub_of_le (by omega) (by omega)]; omega)]
    rw [hjb1] at hst
    rw [hst]
    set jb1 : JB :=
      { jb with
        read_pos := (jb.read_pos + (jb.data_size - lNew)) % jb.buffer_size,
        data_size := lNew,
        overrun_count := (jb.overrun_count + 1) % 2 ^ 32 } with hjb1d
    have hI1 : Inv jb1 := by
      refine ⟨hC, hW, Nat.mod_lt _ hC, hw,
        by show lNew ≤ jb.buffer_size; omega, ?_⟩
      show ((jb.read_pos + (jb.data_size - lNew)) % jb.buffer_size + lNew) %
          jb.buffer_size = jb.write_pos
      rw [Nat.mod_add_mod, show jb.read_pos + (jb.data_size - lNew) + lNew =
          jb.read_pos + jb.data_size from by omega, hrel]
    have hc1 : contents jb1 = encodeRecords
        (dropRecordsUntilFit jb.buffer_size (2 + data.length) ps) := by
      have hsh : contents jb1 = (contents jb).drop (jb.data_size - lNew) :=
        contents_shift jb jb1 (jb.data_size - lNew) rfl rfl rfl
          (by show lNew = jb.data_size - (jb.data_size - lNew); omega)
      rw [hsh, hc, hdlen]
      exact encodeRecords_drop_to_suffix _ _ ps
    constructor
    · rw [contents_set_state]
      rw [contents_writeStore_header jb1 data hI1 hh
        (by show lNew + (2 + data.length) ≤ jb.buffer_size; omega), hc1]
      simp
    · show (writeStore jb1 data).overrun_count = (jb.overrun_count + 1) % 2 ^ 32
      simp only [writeStore, hh, if_true, s_ring_write_overrun_count]
  · -- (2) desync abort, then byte-granular residual discard
    intro jb wlen hI hh hd2 hdesync hov hwC
    obtain ⟨hC, hW, hr, hw, hd, hrel⟩ := hI
    have hws : wsub jb.buffer_size jb.data_size =
        jb.buffer_size - jb.data_size := wsub_of_le hd (by omega)
    have hloop : discardLoop jb.buffer_size jb.buffer jb.read_pos jb.data_size wlen =
        (jb.read_pos, jb.data_size) := by
      rw [discardLoop, dif_pos (by rw [hws]; exact ⟨hov, hd2⟩)]
      dsimp only
      rw [if_pos hdesync]
    simp only [writeDiscard, hh, if_true, hloop]
    rw [if_pos (by rw [hws]; exact hov)]
    rw [hws, wadd_small (by omega), wsub_of_le (by omega) (by omega)]
    exact ⟨rfl, rfl, trivial⟩
  · -- (3) exactly one overrun increment per overflowing write
    intro jb data hI hh hlen hov
    obtain ⟨st, hstd, hst⟩ := write_unfold jb data
    rw [hst]
    show (writeStore (if wsub jb.buffer_size jb.data_size <
        (if jb.config.with_header then wadd 2 data.length else data.length)
      then writeDiscard jb
          (if jb.config.with_header then wadd 2 data.length else data.length)
      else jb) data).overrun_count = (jb.overrun_count + 1) % 2 ^ 32
    rw [hh]
    simp only [if_true]
    rw [if_pos hov]
    have hso : (writeStore (writeDiscard jb (wadd 2 data.length)) data).overrun_count =
        (writeDiscard jb (wadd 2 data.length)).overrun_count := by
      unfold writeStore
      repeat' split
      all_goals simp
    rw [hso, writeDiscard_overrun]

/-- C4 witness: a 12-byte record arriving at a 16-byte ring that holds one
2-byte record; the old record is discarded whole. -/
theorem with_header_overflow_discard_witness :
    contents (jitter_buffer_write jbHdrFull
        [9, 9, 9, 9, 9, 9, 9, 9, 9, 9, 9, 9]).2.1 =
      encodeRecords (dropRecordsUntilFit jbHdrFull.buffer_size
          (2 + ([9, 9, 9, 9, 9, 9, 9, 9, 9, 9, 9, 9] : List Nat).length) [[5, 6]]) ++
        (([9, 9, 9, 9, 9, 9, 9, 9, 9, 9, 9, 9] : List Nat).length / 256 % 256 ::
          ([9, 9, 9, 9, 9, 9, 9, 9, 9, 9, 9, 9] : List Nat).length % 256 ::
          ([9, 9, 9, 9, 9, 9, 9, 9, 9, 9, 9, 9] : List Nat).map (fun b => b % 256)) ∧
    (jitter_buffer_write jbHdrFull
        [9, 9, 9, 9, 9, 9, 9, 9, 9, 9, 9, 9]).2.1.overrun_count =
      (jbHdrFull.overrun_count + 1) % 2 ^ 32 :=
  with_header_overflow_discard.1 jbHdrFull [9, 9, 9, 9, 9, 9, 9, 9, 9, 9, 9, 9]
    [[5, 6]] ⟨by decide, by decide, by decide, by decide, by decide, by decide⟩
    rfl (by decide) (by decide) (by decide) (by decide)

/-! ### C2 -/

theorem map_mod_256_eq (l : List Nat) (h : ∀ b ∈ l, b < 256) :
    l.map (fun b => b % 256) = l := by
  induction l with
  | nil => rfl
  | cons x xs ih =>
    simp only [List.map_cons, List.cons.injEq]
    exact ⟨Nat.mod_eq_of_lt (h x (by simp)), ih fun b hb => h b (by simp [hb])⟩

theorem s_ring_peek_take (jb : JB) (len : Nat) :
    s_ring_peek jb len = (contents jb).take len := by
  apply List.ext_getElem
  · simp [s_ring_peek, contents]
  intro i h1 h2
  simp [s_ring_peek, contents]

/-- The count lemma: a stream of well-formed records parses to one frame per
record. -/
theorem specFrameWalk_encodeRecords (C : Nat) (ps : List (List Nat))
    (hgood : ∀ p ∈ ps, GoodPayload C p) :
    specFrameWalk C (encodeRecords ps) = ps.length := by
  induction ps with
  | nil => simp [specFrameWalk]
  | cons p rest ih =>
    obtain ⟨hg1, hg2⟩ := hgood p (List.mem_cons_self _ _)
    have hLdec : p.length / 256 % 256 * 256 + p.length % 256 = p.length := by omega
    rw [encodeRecords_cons]
    rw [show encodeRecord p ++ encodeRecords rest =
        p.length / 256 % 256 :: p.length % 256 :: (p ++ encodeRecords rest) from rfl]
    rw [specFrameWalk]
    rw [hLdec]
    rw [if_neg (by omega), if_neg (by simp), List.drop_left,
      ih fun q hq => hgood q (List.mem_cons_of_mem _ hq)]
    simp [Nat.add_comm]

/-- A non-overflowing fixed-mode write: contents append, config preserved,
state unchanged or promoted to PLAYING. -/
theorem write_no_overflow_fixed (jb : JB) (data : List Nat) (hI : Inv jb)
    (hh : jb.config.with_header = false)
    (hfit : jb.data_size + data.length ≤ jb.buffer_size) :
    Inv (jitter_buffer_write jb data).2.1 ∧
    contents (jitter_buffer_write jb data).2.1 =
      contents jb ++ data.map (fun b => b % 256) ∧
    (jitter_buffer_write jb data).2.1.config = jb.config ∧
    ((jitter_buffer_write jb data).2.1.state = JState.playing ∨
      (jitter_buffer_write jb data).2.1.state = jb.state) := by
  obtain ⟨hC, hW, hr, hw, hd, hrel⟩ := hI
  obtain ⟨st, hstd, hst⟩ := write_unfold jb data
  rw [hh] at hst
  simp only [Bool.false_eq_true, if_false] at hst
  rw [if_neg (by rw [wsub_of_le hd (by omega)]; omega)] at hst
  rw [hst]
  refine ⟨?_, ?_, ?_, ?_⟩
  · rw [Inv_set_state]
    exact Inv_writeStore_fit jb data ⟨hC, hW, hr, hw, hd, hrel⟩
      (by simp [wireLen, hh]; omega)
  · rw [contents_set_state]
    exact contents_writeStore_fixed jb data ⟨hC, hW, hr, hw, hd, hrel⟩ hh hfit
  · show (writeStore jb data).config = jb.config
    simp
  · show st = JState.playing ∨ st = jb.state
    exact hstd

/-- A non-overflowing `with_header` write of byte-valued payload: the
record is appended, config preserved, state unchanged or promoted. -/
theorem write_no_overflow_header (jb : JB) (data : List Nat) (hI : Inv jb)
    (hh : jb.config.with_header = true)
    (hbytes : ∀ b ∈ data, b < 256)
    (hfit : jb.data_size + (2 + data.length) ≤ jb.buffer_size) :
    Inv (jitter_buffer_write jb data).2.1 ∧
    contents (jitter_buffer_write jb data).2.1 =
      contents jb ++ encodeRecord data ∧
    (jitter_buffer_write jb data).2.1.config = jb.config ∧
    ((jitter_buffer_write jb data).2.1.state = JState.playing ∨
      (jitter_buffer_write jb data).2.1.state = jb.state) := by
  obtain ⟨hC, hW, hr, hw, hd, hrel⟩ := hI
  obtain ⟨st, hstd, hst⟩ := write_unfold jb data
  rw [hh] at hst
  simp only [if_true] at hst
  rw [wadd_small (show 2 + data.length < W from by omega)] at hst
  rw [if_neg (by rw [wsub_of_le hd (by omega)]; omega)] at hst
  rw [hst]
  refine ⟨?_, ?_, ?_, ?_⟩
  · rw [Inv_set_state]
    exact Inv_writeStore_fit jb data ⟨hC, hW, hr, hw, hd, hrel⟩
      (by simp [wireLen, hh]; omega)
  · rw [contents_set_state]
    rw [contents_writeStore_header jb data ⟨hC, hW, hr, hw, hd, hrel⟩ hh hfit]
    rw [map_mod_256_eq data hbytes]
    simp [encodeRecord]
  · show (writeStore jb data).config = jb.config
    simp
  · show st = JState.playing ∨ st = jb.state
    exact hstd

theorem writeList_fixed_spec :
    ∀ (ps : List (List Nat)) (jb : JB), Inv jb →
      jb.config.with_header = false →
      jb.data_size + ps.flatten.length ≤ jb.buffer_size →
      Inv (writeList jb ps) ∧
      contents (writeList jb ps) = contents jb ++ ps.flatten.map (fun b => b % 256) ∧
      (writeList jb ps).config = jb.config ∧
      ((writeList jb ps).state = JState.playing ∨ (writeList jb ps).state = jb.state) := by
  intro ps
  induction ps with
  | nil =>
    intro jb hI hh hfit
    exact ⟨hI, by simp [writeList], rfl, Or.inr rfl⟩
  | cons p rest ih =>
    intro jb hI hh hfit
    simp only [List.flatten_cons, List.length_append] at hfit
    obtain ⟨hI1, hc1, hcfg1, hst1⟩ :=
      write_no_overflow_fixed jb p hI hh (by omega)
    have hd1 : (jitter_buffer_write jb p).2.1.data_size =
        jb.data_size + p.length := by
      have h := congrArg List.length hc1
      simpa [contents_length] using h
    obtain ⟨hI2, hc2, hcfg2, hst2⟩ := ih (jitter_buffer_write jb p).2.1 hI1
      (by rw [hcfg1]; exact hh)
      (by rw [hd1, jitter_buffer_write_buffer_size]; omega)
    rw [writeList]
    refine ⟨hI2, ?_, ?_, ?_⟩
    · rw [hc2, hc1]
      simp [List.flatten_cons]
    · rw [hcfg2, hcfg1]
    · rcases hst2 with h | h
      · exact Or.inl h
      · rw [h]
        exact hst1

theorem writeList_header_spec :
    ∀ (ps : List (List Nat)) (jb : JB), Inv jb →
      jb.config.with_header = true →
      (∀ p ∈ ps, ∀ b ∈ p, b < 256) →
      jb.data_size + (encodeRecords ps).length ≤ jb.buffer_size →
      Inv (writeList jb ps) ∧
      contents (writeList jb ps) = contents jb ++ encodeRecords ps ∧
      (writeList jb ps).config = jb.config ∧
      ((writeList jb ps).state = JState.playing ∨ (writeList jb ps).state = jb.state) := by
  intro ps
  induction ps with
  | nil =>
    intro jb hI hh hbytes hfit
    exact ⟨hI, by simp [writeList], rfl, Or.inr rfl⟩
  | cons p rest ih =>
    intro jb hI hh hbytes hfit
    rw [encodeRecords_cons] at hfit
    simp only [List.length_append, encodeRecord_length] at hfit
    obtain ⟨hI1, hc1, hcfg1, hst1⟩ :=
      write_no_overflow_header jb p hI hh (hbytes p (by simp)) (by omega)
    have hd1 : (jitter_buffer_write jb p).2.1.data_size =
        jb.data_size + (2 + p.length) := by
      have h := congrArg List.length hc1
      simpa [contents_length, encodeRecord_length] using h
    obtain ⟨hI2, hc2, hcfg2, hst2⟩ := ih (jitter_buffer_write jb p).2.1 hI1
      (by rw [hcfg1]; exact hh)
      (fun q hq => hbytes q (by simp [hq]))
      (by rw [hd1, jitter_buffer_write_buffer_size]; omega)
    rw [writeList]
    refine ⟨hI2, ?_, ?_, ?_⟩
    · rw [hc2, hc1, encodeRecords_cons, List.append_assoc]
    · rw [hcfg2, hcfg1]
    · rcases hst2 with h | h
      · exact Or.inl h
      · rw [h]
        exact hst1

theorem readData_fixed (jb : JB) (len : Nat) (evs : List JEvent)
    (hh : jb.config.with_header = false) (h0 : 0 < len) (hle : len ≤ jb.data_size) :
    readData jb len evs = ⟨len, (contents jb).take len, evs, (s_ring_read jb len).2⟩ := by
  unfold readData
  rw [hh]
  simp only [Bool.false_eq_true, if_false]
  rw [Nat.min_eq_left hle, if_neg (by omega), s_ring_read_bytes_take]

/-- One pump tick in fixed mode, at least one frame buffered, state PLAYING
(or BUFFERING at high water): the tick outputs the first `F` bytes and
drops them from the ring, landing in PLAYING. -/
theorem read_fixed_consume (jb : JB) (hI : Inv jb)
    (hh : jb.config.with_header = false) (hLW : jb.config.low_water = 1)
    (hst : jb.state = JState.playing ∨
      (jb.state = JState.buffering ∧ jb.config.high_water ≤ frameCount jb))
    (hF : 0 < jb.config.frame_size) (hdF : jb.config.frame_size ≤ jb.data_size) :
    ∃ evs,
      s_jitter_buffer_process jb =
        (TickOut.dataOut ((contents jb).take jb.config.frame_size), evs,
          (s_jitter_buffer_read jb jb.config.frame_size).jb) ∧
      Inv (s_jitter_buffer_read jb jb.config.frame_size).jb ∧
      contents (s_jitter_buffer_read jb jb.config.frame_size).jb =
        (contents jb).drop jb.config.frame_size ∧
      (s_jitter_buffer_read jb jb.config.frame_size).jb.config = jb.config ∧
      (s_jitter_buffer_read jb jb.config.frame_size).jb.state = JState.playing ∧
      (s_jitter_buffer_read jb jb.config.frame_size).jb.data_size =
        jb.data_size - jb.config.frame_size := by
  obtain ⟨hC, hW, hr, hw, hd, hrel⟩ := hI
  have hfc : 1 ≤ frameCount jb := by
    simp only [frameCount, hh, Bool.false_eq_true, if_false]
    exact (Nat.one_le_div_iff hF).mpr hdF
  have hIR : Inv (s_jitter_buffer_read jb jb.config.frame_size).jb :=
    Inv_s_jitter_buffer_read jb _ ⟨hC, hW, hr, hw, hd, hrel⟩
  rcases hst with hstp | ⟨hstb, hhw⟩
  · have hread : s_jitter_buffer_read jb jb.config.frame_size =
        ⟨jb.config.frame_size, (contents jb).take jb.config.frame_size, [],
          (s_ring_read jb jb.config.frame_size).2⟩ := by
      unfold s_jitter_buffer_read
      dsimp only
      rw [if_neg (by simp [hstp])]
      unfold readAfterHighGate
      rw [if_neg (by simp [hstp, hLW]; omega)]
      exact readData_fixed jb _ [] hh hF hdF
    refine ⟨[], ?_, hIR, ?_, ?_, ?_, ?_⟩
    · have htrip : s_jitter_buffer_process jb =
          ((s_jitter_buffer_process jb).1, (s_jitter_buffer_process jb).2.1,
            (s_jitter_buffer_process jb).2.2) := rfl
      rw [htrip, process_out, process_jb, process_events, hread]
      dsimp only
      rw [if_pos hF]
    · rw [hread]
      exact contents_s_ring_read jb _ hC hr (by omega)
    · rw [hread]
      simp
    · rw [hread]
      simp [hstp]
    · rw [hread]
      simp [Nat.min_eq_left hdF]
  · have hread : s_jitter_buffer_read jb jb.config.frame_size =
        ⟨jb.config.frame_size, (contents jb).take jb.config.frame_size,
          s_post_state_event jb JEvent.playing,
          (s_ring_read { jb with state := JState.playing } jb.config.frame_size).2⟩ := by
      unfold s_jitter_buffer_read
      dsimp only
      rw [if_pos (by simp [hstb]), if_pos hhw]
      unfold readAfterHighGate
      rw [if_neg (by simp [hLW]; omega)]
      rw [readData_fixed { jb with state := JState.playing } _ _ hh hF hdF,
        contents_set_state]
    refine ⟨s_post_state_event jb JEvent.playing, ?_, hIR, ?_, ?_, ?_, ?_⟩
    · have htrip : s_jitter_buffer_process jb =
          ((s_jitter_buffer_process jb).1, (s_jitter_buffer_process jb).2.1,
            (s_jitter_buffer_process jb).2.2) := rfl
      rw [htrip, process_out, process_jb, process_events, hread]
      dsimp only
      rw [if_pos hF]
    · rw [hread]
      have h2 := contents_s_ring_read { jb with state := JState.playing }
        jb.config.frame_size hC hr (by show jb.read_pos + jb.data_size < W; omega)
      rw [h2, contents_set_state]
    · rw [hread]
      simp
    · rw [hread]
      simp
    · rw [hread]
      simp [Nat.min_eq_left hdF]

/-- Draining `k` frames from a `k · F`-byte fixed-mode ring returns exactly
the ring contents, in order. -/
theorem drain_fixed :
    ∀ (k : Nat) (jb : JB), Inv jb →
      jb.config.with_header = false → jb.config.low_water = 1 →
      0 < jb.config.frame_size →
      (jb.state = JState.playing ∨
        (jb.state = JState.buffering ∧ jb.config.high_water ≤ frameCount jb)) →
      jb.data_size = k * jb.config.frame_size →
      (drainTicks k jb).flatten = contents jb := by
  intro k
  induction k with
  | zero =>
    intro jb hI hh hLW hF hst hd0
    have hnil : contents jb = [] :=
      List.eq_nil_of_length_eq_zero (by simp [contents_length]; omega)
    simp [drainTicks, hnil]
  | succ k ih =>
    intro jb hI hh hLW hF hst hdk
    have hdF : jb.config.frame_size ≤ jb.data_size := by
      rw [hdk, Nat.succ_mul]
      omega
    obtain ⟨evs, htup, hIR, hcR, hcfgR, hstR, hdR⟩ :=
      read_fixed_consume jb hI hh hLW hst hF hdF
    rw [drainTicks, htup]
    rw [List.flatten_cons]
    rw [ih (s_jitter_buffer_read jb jb.config.frame_size).jb hIR
      (by rw [hcfgR]; exact hh) (by rw [hcfgR]; exact hLW)
      (by rw [hcfgR]; exact hF) (Or.inl hstR)
      (by rw [hdR, hcfgR, hdk, Nat.succ_mul]; omega)]
    rw [hcR]
    exact List.take_append_drop _ _

theorem frameCount_header (jb : JB) (hh : jb.config.with_header = true) :
    frameCount jb = specFrameWalk jb.buffer_size (contents jb) := by
  simp only [frameCount, hh, if_true, s_get_frame_count_with_header, contents]
  rw [frameWalk_eq_specFrameWalk]
  simp

/-- The data path of a header-mode read when the head record is whole and
within the payload bound: consume the record, return the payload. -/
theorem readData_header_record (jb : JB) (len : Nat) (evs : List JEvent)
    (p : List Nat) (rest : List (List Nat))
    (hI : Inv jb) (hh : jb.config.with_header = true)
    (hc : contents jb = encodeRecords (p :: rest))
    (hp16 : p.length < 65536) (hpF : p.length ≤ jb.config.frame_size) :
    readData jb len evs =
      ⟨p.length, p, evs, (s_ring_read (s_ring_read jb 2).2 p.length).2⟩ := by
  obtain ⟨hC, hW, hr, hw, hd, hrel⟩ := hI
  have hdlen : jb.data_size = 2 + p.length + (encodeRecords rest).length := by
    have h := congrArg List.length hc
    simpa [contents_length, encodeRecords_cons_length] using h
  have hpk : s_ring_peek jb 2 = [p.length / 256 % 256, p.length % 256] := by
    rw [s_ring_peek_take, hc, encodeRecords_cons]
    rfl
  have hdec : (s_ring_peek jb 2).getD 0 0 * 256 + (s_ring_peek jb 2).getD 1 0 =
      p.length := by
    rw [hpk]
    simp [List.getD]
    omega
  unfold readData
  rw [hh]
  simp only [if_true]
  rw [if_neg (by omega)]
  rw [hdec]
  rw [if_neg (by omega), if_neg (by omega)]
  have hc1 : contents (s_ring_read jb 2).2 = p ++ encodeRecords rest := by
    rw [contents_s_ring_read jb 2 hC hr (by omega), hc, encodeRecords_cons]
    rfl
  have hbytes : (s_ring_read (s_ring_read jb 2).2 p.length).1 = p := by
    rw [s_ring_read_bytes_take, hc1, List.take_left]
  rw [hbytes]

/-- One pump tick in `with_header` mode with a well-formed head record and
the state gates open: the tick returns the head payload and removes its
record. -/
theorem read_header_consume (jb : JB) (p : List Nat) (rest : List (List Nat))
    (hI : Inv jb) (hh : jb.config.with_header = true)
    (hLW : jb.config.low_water = 1)
    (hst : jb.state = JState.playing ∨
      (jb.state = JState.buffering ∧ jb.config.high_water ≤ frameCount jb))
    (hc : contents jb = encodeRecords (p :: rest))
    (hgood : ∀ q ∈ p :: rest, GoodPayload jb.buffer_size q)
    (hpF : p.length ≤ jb.config.frame_size) :
    ∃ evs,
      s_jitter_buffer_read jb jb.config.frame_size =
        ⟨p.length, p, evs,
          (s_jitter_buffer_read jb jb.config.frame_size).jb⟩ ∧
      Inv (s_jitter_buffer_read jb jb.config.frame_size).jb ∧
      contents (s_jitter_buffer_read jb jb.config.frame_size).jb =
        encodeRecords rest ∧
      (s_jitter_buffer_read jb jb.config.frame_size).jb.config = jb.config ∧
      (s_jitter_buffer_read jb jb.config.frame_size).jb.state = JState.playing ∧
      (s_jitter_buffer_read jb jb.config.frame_size).jb.buffer_size = jb.buffer_size := by
  obtain ⟨hC, hW, hr, hw, hd, hrel⟩ := hI
  obtain ⟨hg1, hg2⟩ := hgood p (List.mem_cons_self _ _)
  have hfc : 1 ≤ frameCount jb := by
    rw [frameCount_header jb hh, hc, specFrameWalk_encodeRecords _ _ hgood]
    simp
  have hIR : Inv (s_jitter_buffer_read jb jb.config.frame_size).jb :=
    Inv_s_jitter_buffer_read jb _ ⟨hC, hW, hr, hw, hd, hrel⟩
  rcases hst with hstp | ⟨hstb, hhw⟩
  · have hread : s_jitter_buffer_read jb jb.config.frame_size =
        ⟨p.length, p, [], (s_ring_read (s_ring_read jb 2).2 p.length).2⟩ := by
      unfold s_jitter_buffer_read
      dsimp only
      rw [if_neg (by simp [hstp])]
      unfold readAfterHighGate
      rw [if_neg (by simp [hstp, hLW]; omega)]
      exact readData_header_record jb _ [] p rest ⟨hC, hW, hr, hw, hd, hrel⟩ hh hc hg2 hpF
    have hc1 : contents (s_ring_read jb 2).2 = p ++ encodeRecords rest := by
      rw [contents_s_ring_read jb 2 hC hr (by omega), hc, encodeRecords_cons]
      rfl
    have hr1 : (s_ring_read jb 2).2.read_pos < jb.buffer_size := by
      rw [s_ring_read_read_pos jb 2 hr (by omega)]
      exact Nat.mod_lt _ hC
    have hW1 : (s_ring_read jb 2).2.read_pos + (s_ring_read jb 2).2.data_size < W := by
      simp only [s_ring_read_data_size]
      omega
    refine ⟨[], ?_, hIR, ?_, ?_, ?_, ?_⟩
    · rw [hread]
    · rw [hread]
      rw [contents_s_ring_read (s_ring_read jb 2).2 p.length (by simpa using hC)
        (by simpa using hr1) hW1]
      rw [hc1, List.drop_left]
    · rw [hread]
      simp
    · rw [hread]
      simp [hstp]
    · rw [hread]
      simp
  · have hfcs : frameCount { jb with state := JState.playing } = frameCount jb := rfl
    have hread : s_jitter_buffer_read jb jb.config.frame_size =
        ⟨p.length, p, s_post_state_event jb JEvent.playing,
          (s_ring_read (s_ring_read { jb with state := JState.playing } 2).2
            p.length).2⟩ := by
      unfold s_jitter_buffer_read
      dsimp only
      rw [if_pos (by simp [hstb]), if_pos hhw]
      unfold readAfterHighGate
      rw [if_neg (by simp [hLW, hfcs]; omega)]
      exact readData_header_record { jb with state := JState.playing } _ _ p rest
        ⟨hC, hW, hr, hw, hd, hrel⟩ hh hc hg2 hpF
    have hc1 : contents (s_ring_read { jb with state := JState.playing } 2).2 =
        p ++ encodeRecords rest := by
      rw [contents_s_ring_read { jb with state := JState.playing } 2 hC hr
        (by show jb.read_pos + jb.data_size < W; omega)]
      rw [contents_set_state, hc, encodeRecords_cons]
      rfl
    have hr1 : (s_ring_read { jb with state := JState.playing } 2).2.read_pos <
        jb.buffer_size := by
      rw [s_ring_read_read_pos { jb with state := JState.playing } 2 hr
        (by show jb.read_pos + jb.data_size < W; omega)]
      exact Nat.mod_lt _ hC
    have hW1 : (s_ring_read { jb with state := JState.playing } 2).2.read_pos +
        (s_ring_read { jb with state := JState.playing } 2).2.data_size < W := by
      simp only [s_ring_read_data_size]
      show _ + (jb.data_size - min 2 jb.data_size) < W
      omega
    refine ⟨s_post_state_event jb JEvent.playing, ?_, hIR, ?_, ?_, ?_, ?_⟩
    · rw [hread]
    · rw [hread]
      rw [contents_s_ring_read (s_ring_read { jb with state := JState.playing } 2).2
        p.length (by simpa using hC) (by simpa using hr1) hW1]
      rw [hc1, List.drop_left]
    · rw [hread]
      simp
    · rw [hread]
      simp
    · rw [hread]
      simp

/-- Draining one tick per record from a well-formed `with_header` ring
returns exactly the payloads, in order; empty payloads produce no data
tick and contribute nothing to the concatenation. -/
theorem drain_header :
    ∀ (ps : List (List Nat)) (jb : JB), Inv jb →
      jb.config.with_header = true → jb.config.low_water = 1 →
      (jb.state = JState.playing ∨
        (jb.state = JState.buffering ∧ jb.config.high_water ≤ frameCount jb)) →
      contents jb = encodeRecords ps →
      (∀ q ∈ ps, GoodPayload jb.buffer_size q ∧ q.length ≤ jb.config.frame_size) →
      (drainTicks ps.length jb).flatten = ps.flatten := by
  intro ps
  induction ps with
  | nil =>
    intro jb _ _ _ _ _ _
    simp [drainTicks]
  | cons p rest ih =>
    intro jb hI hh hLW hst hc hgood
    obtain ⟨evs, htup, hIR, hcR, hcfgR, hstR, hbsR⟩ :=
      read_header_consume jb p rest hI hh hLW hst hc
        (fun q hq => (hgood q hq).1) (hgood p (List.mem_cons_self _ _)).2
    have hih := ih (s_jitter_buffer_read jb jb.config.frame_size).jb hIR
      (by rw [hcfgR]; exact hh) (by rw [hcfgR]; exact hLW) (Or.inl hstR) hcR
      (by intro q hq; rw [hbsR, hcfgR]; exact hgood q (List.mem_cons_of_mem _ hq))
    have htrip : s_jitter_buffer_process jb =
        ((s_jitter_buffer_process jb).1, (s_jitter_buffer_process jb).2.1,
          (s_jitter_buffer_process jb).2.2) := rfl
    simp only [List.length_cons]
    rcases Nat.eq_zero_or_pos p.length with hp0 | hp
    · have hpnil : p = [] := List.eq_nil_of_length_eq_zero hp0
      cases hos : jb.config.output_silence_on_empty with
      | false =>
        have hproc : s_jitter_buffer_process jb =
            (TickOut.noCall, evs, (s_jitter_buffer_read jb jb.config.frame_size).jb) := by
          rw [htrip, process_out, process_jb, process_events, htup]
          dsimp only
          rw [if_neg (by omega), if_neg (by simp [hos])]
        rw [drainTicks, hproc, hih]
        simp [hpnil]
      | true =>
        have hproc : s_jitter_buffer_process jb =
            (TickOut.silenceOut (List.replicate jb.config.frame_size 0), evs,
              (s_jitter_buffer_read jb jb.config.frame_size).jb) := by
          rw [htrip, process_out, process_jb, process_events, htup]
          dsimp only
          rw [if_neg (by omega), if_pos hos]
        rw [drainTicks, hproc, hih]
        simp [hpnil]
    · have hproc : s_jitter_buffer_process jb =
          (TickOut.dataOut p, evs, (s_jitter_buffer_read jb jb.config.frame_size).jb) := by
        rw [htrip, process_out, process_jb, process_events, htup]
        dsimp only
        rw [if_pos hp]
      rw [drainTicks, hproc, List.flatten_cons, hih]
      exact List.flatten_cons.symm

theorem writeList_buffer_size :
    ∀ (ps : List (List Nat)) (jb : JB), (writeList jb ps).buffer_size = jb.buffer_size := by
  intro ps
  induction ps with
  | nil => intro jb; rfl
  | cons p rest ih =>
    intro jb
    rw [writeList, ih, jitter_buffer_write_buffer_size]

/-- Any number of ticks `n` with at least `n` whole frames buffered returns
the first `n · F` bytes of the ring, in order. -/
theorem drain_fixed_take :
    ∀ (n : Nat) (jb : JB), Inv jb →
      jb.config.with_header = false → jb.config.low_water = 1 →
      0 < jb.config.frame_size →
      (jb.state = JState.playing ∨
        (jb.state = JState.buffering ∧ jb.config.high_water ≤ frameCount jb)) →
      n * jb.config.frame_size ≤ jb.data_size →
      (drainTicks n jb).flatten = (contents jb).take (n * jb.config.frame_size) := by
  intro n
  induction n with
  | zero =>
    intro jb _ _ _ _ _ _
    simp [drainTicks]
  | succ n ih =>
    intro jb hI hh hLW hF hst hn
    rw [Nat.succ_mul] at hn
    have hdF : jb.config.frame_size ≤ jb.data_size := by omega
    obtain ⟨evs, htup, hIR, hcR, hcfgR, hstR, hdR⟩ :=
      read_fixed_consume jb hI hh hLW hst hF hdF
    rw [drainTicks, htup, List.flatten_cons]
    rw [ih (s_jitter_buffer_read jb jb.config.frame_size).jb hIR
      (by rw [hcfgR]; exact hh) (by rw [hcfgR]; exact hLW)
      (by rw [hcfgR]; exact hF) (Or.inl hstR)
      (by rw [hdR, hcfgR]; omega)]
    rw [hcR, hcfgR]
    have hsplit : (n + 1) * jb.config.frame_size =
        jb.config.frame_size + n * jb.config.frame_size := by ring
    rw [hsplit, List.take_add]

/-- Any number of ticks `n ≤` the number of buffered records in a
well-formed `with_header` ring returns the first `n` payloads, in order. -/
theorem drain_header_take :
    ∀ (n : Nat) (ps : List (List Nat)) (jb : JB), Inv jb →
      jb.config.with_header = true → jb.config.low_water = 1 →
      (jb.state = JState.playing ∨
        (jb.state = JState.buffering ∧ jb.config.high_water ≤ frameCount jb)) →
      contents jb = encodeRecords ps →
      (∀ q ∈ ps, GoodPayload jb.buffer_size q ∧ q.length ≤ jb.config.frame_size) →
      n ≤ ps.length →
      (drainTicks n jb).flatten = (ps.take n).flatten := by
  intro n
  induction n with
  | zero =>
    intro ps jb _ _ _ _ _ _ _
    simp [drainTicks]
  | succ n ih =>
    intro ps jb hI hh hLW hst hc hgood hn
    cases ps with
    | nil => simp at hn
    | cons p rest =>
      obtain ⟨evs, htup, hIR, hcR, hcfgR, hstR, hbsR⟩ :=
        read_header_consume jb p rest hI hh hLW hst hc
          (fun q hq => (hgood q hq).1) (hgood p (List.mem_cons_self _ _)).2
      have hih := ih rest (s_jitter_buffer_read jb jb.config.frame_size).jb hIR
        (by rw [hcfgR]; exact hh) (by rw [hcfgR]; exact hLW) (Or.inl hstR) hcR
        (by intro q hq; rw [hbsR, hcfgR]; exact hgood q (List.mem_cons_of_mem _ hq))
        (by simpa using hn)
      have htrip : s_jitter_buffer_process jb =
          ((s_jitter_buffer_process jb).1, (s_jitter_buffer_process jb).2.1,
            (s_jitter_buffer_process jb).2.2) := rfl
      rw [List.take_succ_cons, List.flatten_cons]
      rcases Nat.eq_zero_or_pos p.length with hp0 | hp
      · have hpnil : p = [] := List.eq_nil_of_length_eq_zero hp0
        cases hos : jb.config.output_silence_on_empty with
        | false =>
          have hproc : s_jitter_buffer_process jb =
              (TickOut.noCall, evs, (s_jitter_buffer_read jb jb.config.frame_size).jb) := by
            rw [htrip, process_out, process_jb, process_events, htup]
            dsimp only
            rw [if_neg (by omega), if_neg (by simp [hos])]
          rw [drainTicks, hproc, hih]
          simp [hpnil]
        | true =>
          have hproc : s_jitter_buffer_process jb =
              (TickOut.silenceOut (List.replicate jb.config.frame_size 0), evs,
                (s_jitter_buffer_read jb jb.config.frame_size).jb) := by
            rw [htrip, process_out, process_jb, process_events, htup]
            dsimp only
            rw [if_neg (by omega), if_pos hos]
          rw [drainTicks, hproc, hih]
          simp [hpnil]
      · have hproc : s_jitter_buffer_process jb =
            (TickOut.dataOut p, evs, (s_jitter_buffer_read jb jb.config.frame_size).jb) := by
          rw [htrip, process_out, process_jb, process_events, htup]
          dsimp only
          rw [if_pos hp]
        rw [drainTicks, hproc, List.flatten_cons, hih]

/-! ### A pump tick, in any state and at any watermarks, only ever takes
bytes off the front of the ring -/

theorem readData_fixed_general (jb : JB) (len : Nat) (evs : List JEvent)
    (hI : Inv jb) (hh : jb.config.with_header = false) :
    (readData jb len evs).bytes ++ contents (readData jb len evs).jb = contents jb ∧
    ((readData jb len evs).ret = 0 → (readData jb len evs).bytes = []) := by
  obtain ⟨hC, hW, hr, hw, hd, hrel⟩ := hI
  unfold readData
  rw [hh]
  simp only [Bool.false_eq_true, if_false]
  by_cases h0 : min len jb.data_size = 0
  · rw [if_pos h0]
    exact ⟨by simp, fun _ => rfl⟩
  · rw [if_neg h0]
    dsimp only
    rw [s_ring_read_bytes_take]
    refine ⟨?_, fun hz => absurd hz h0⟩
    rw [contents_s_ring_read jb _ hC hr (by omega)]
    exact List.take_append_drop _ _

theorem s_jitter_buffer_read_config (jb : JB) (len : Nat) :
    (s_jitter_buffer_read jb len).jb.config = jb.config := by
  unfold s_jitter_buffer_read readAfterHighGate
  dsimp only
  repeat' split
  all_goals simp [readData_config]

theorem read_fixed_general (jb : JB) (len : Nat)
    (hI : Inv jb) (hh : jb.config.with_header = false) :
    (s_jitter_buffer_read jb len).bytes ++
      contents (s_jitter_buffer_read jb len).jb = contents jb ∧
    ((s_jitter_buffer_read jb len).ret = 0 →
      (s_jitter_buffer_read jb len).bytes = []) := by
  unfold s_jitter_buffer_read readAfterHighGate
  dsimp only
  split
  · split
    · split
      · exact ⟨rfl, fun _ => rfl⟩
      · exact readData_fixed_general { jb with state := JState.playing } len _ hI hh
    · exact ⟨rfl, fun _ => rfl⟩
  · split
    · exact ⟨rfl, fun _ => rfl⟩
    · exact readData_fixed_general jb len [] hI hh

theorem contents_read_record (jb : JB) (p : List Nat) (rest : List (List Nat))
    (hI : Inv jb) (hc : contents jb = encodeRecords (p :: rest)) :
    contents (s_ring_read (s_ring_read jb 2).2 p.length).2 = encodeRecords rest := by
  obtain ⟨hC, hW, hr, hw, hd, hrel⟩ := hI
  have hc1 : contents (s_ring_read jb 2).2 = p ++ encodeRecords rest := by
    rw [contents_s_ring_read jb 2 hC hr (by omega), hc, encodeRecords_cons]
    rfl
  have hr1 : (s_ring_read jb 2).2.read_pos < jb.buffer_size := by
    rw [s_ring_read_read_pos jb 2 hr (by omega)]
    exact Nat.mod_lt _ hC
  have hW1 : (s_ring_read jb 2).2.read_pos + (s_ring_read jb 2).2.data_size < W := by
    simp only [s_ring_read_data_size]
    omega
  rw [contents_s_ring_read (s_ring_read jb 2).2 p.length (by simpa using hC)
    (by simpa using hr1) hW1, hc1, List.drop_left]

theorem encodeRecords_snoc (ps : List (List Nat)) (p : List Nat) :
    encodeRecords (ps ++ [p]) = encodeRecords ps ++ encodeRecord p := by
  simp [encodeRecords]

theorem readData_header_general (jb : JB) (len : Nat) (evs : List JEvent)
    (pending : List (List Nat)) (hI : Inv jb) (hh : jb.config.with_header = true)
    (hc : contents jb = encodeRecords pending)
    (hgood : ∀ q ∈ pending, q.length < 65536 ∧ q.length ≤ jb.config.frame_size) :
    ∃ pending2,
      contents (readData jb len evs).jb = encodeRecords pending2 ∧
      (∀ q ∈ pending2, q.length < 65536 ∧ q.length ≤ jb.config.frame_size) ∧
      (readData jb len evs).bytes ++ pending2.flatten = pending.flatten ∧
      ((readData jb len evs).ret = 0 → (readData jb len evs).bytes = []) := by
  cases pending with
  | nil =>
    have hd0 : jb.data_size = 0 := by
      have h := congrArg List.length hc
      simpa [contents_length] using h
    have hrd : readData jb len evs = ⟨0, [], evs, jb⟩ := by
      unfold readData
      rw [hh]
      simp only [if_true]
      rw [if_pos (by omega)]
    refine ⟨[], ?_, by simp, ?_, ?_⟩
    · rw [hrd]
      exact hc
    · rw [hrd]
      simp
    · intro hz
      rw [hrd]
  | cons p rest =>
    obtain ⟨hp16, hpF⟩ := hgood p (List.mem_cons_self _ _)
    have hrd := readData_header_record jb len evs p rest hI hh hc hp16 hpF
    refine ⟨rest, ?_, fun q hq => hgood q (List.mem_cons_of_mem _ hq), ?_, ?_⟩
    · rw [hrd]
      exact contents_read_record jb p rest hI hc
    · rw [hrd]
      exact List.flatten_cons.symm
    · intro hz
      rw [hrd] at hz
      rw [hrd]
      exact List.eq_nil_of_length_eq_zero (by simpa using hz)

theorem read_header_general (jb : JB) (len : Nat) (pending : List (List Nat))
    (hI : Inv jb) (hh : jb.config.with_header = true)
    (hc : contents jb = encodeRecords pending)
    (hgood : ∀ q ∈ pending, q.length < 65536 ∧ q.length ≤ jb.config.frame_size) :
    ∃ pending2,
      contents (s_jitter_buffer_read jb len).jb = encodeRecords pending2 ∧
      (∀ q ∈ pending2, q.length < 65536 ∧ q.length ≤ jb.config.frame_size) ∧
      (s_jitter_buffer_read jb len).bytes ++ pending2.flatten = pending.flatten ∧
      ((s_jitter_buffer_read jb len).ret = 0 →
        (s_jitter_buffer_read jb len).bytes = []) := by
  unfold s_jitter_buffer_read readAfterHighGate
  dsimp only
  split
  · split
    · split
      · exact ⟨pending, hc, hgood, by simp, fun _ => rfl⟩
      · exact readData_header_general { jb with state := JState.playing } len _
          pending hI hh hc hgood
    · exact ⟨pending, hc, hgood, by simp, fun _ => rfl⟩
  · split
    · exact ⟨pending, hc, hgood, by simp, fun _ => rfl⟩
    · exact readData_header_general jb len [] pending hI hh hc hgood

/-- C2: Round-trip FIFO.  For any interleaved schedule of writes and pump
ticks, in either framing mode, at any watermark configuration and from any
starting state, as long as no write overflows the ring: the concatenation of
the byte sequences handed to `on_output_data` by the data-producing ticks,
followed by the bytes still buffered, equals the starting contents followed
by the concatenation of the payloads written, in order — so after every
prefix of ticks that produced data, the delivered bytes are exactly a prefix
of the written byte stream.  (Header mode asks each payload to be a
well-formed record: length below 2^16 and at most the configured frame
size.) -/
theorem round_trip_fifo :
    (∀ (ops : List Op) (jb : JB), Inv jb →
      jb.config.with_header = false →
      (∀ p ∈ opsWrites ops, ∀ b ∈ p, b < 256) →
      opsFit jb ops = true →
      (runOps jb ops).1.flatten ++ contents (runOps jb ops).2 =
        contents jb ++ (opsWrites ops).flatten) ∧
    (∀ (ops : List Op) (jb : JB) (pending : List (List Nat)), Inv jb →
      jb.config.with_header = true →
      contents jb = encodeRecords pending →
      (∀ q ∈ pending, q.length < 65536 ∧ q.length ≤ jb.config.frame_size) →
      (∀ p ∈ opsWrites ops, (∀ b ∈ p, b < 256) ∧
        p.length < 65536 ∧ p.length ≤ jb.config.frame_size) →
      opsFit jb ops = true →
      ∃ pendingF,
        contents (runOps jb ops).2 = encodeRecords pendingF ∧
        (runOps jb ops).1.flatten ++ pendingF.flatten =
          pending.flatten ++ (opsWrites ops).flatten) := by
  constructor
  · intro ops
    induction ops with
    | nil =>
      intro jb hI hh hbytes hfit
      simp [runOps, opsWrites]
    | cons op ops ih =>
      intro jb hI hh hbytes hfit
      cases op with
      | write p =>
        have hOW : opsWrites (Op.write p :: ops) = p :: opsWrites ops := rfl
        rw [hOW] at hbytes
        rw [opsFit] at hfit
        by_cases hcond : jb.data_size + wireLen jb p ≤ jb.buffer_size
        · rw [if_pos hcond] at hfit
          have hwire : wireLen jb p = p.length := by simp [wireLen, hh]
          rw [hwire] at hcond
          obtain ⟨hI1, hc1, hcfg1, hst1⟩ := write_no_overflow_fixed jb p hI hh hcond
          rw [runOps, hOW]
          rw [ih (jitter_buffer_write jb p).2.1 hI1 (by rw [hcfg1]; exact hh)
            (fun q hq => hbytes q (List.mem_cons_of_mem _ hq)) hfit]
          rw [hc1, map_mod_256_eq p (hbytes p (List.mem_cons_self _ _))]
          rw [List.flatten_cons, List.append_assoc]
        · rw [if_neg hcond] at hfit
          exact absurd hfit (by simp)
      | tick =>
        have hOW : opsWrites (Op.tick :: ops) = opsWrites ops := rfl
        rw [hOW] at hbytes
        rw [opsFit, process_jb] at hfit
        have hgen := read_fixed_general jb jb.config.frame_size hI hh
        have hcfgR := s_jitter_buffer_read_config jb jb.config.frame_size
        have hIR := Inv_s_jitter_buffer_read jb jb.config.frame_size hI
        have hih := ih (s_jitter_buffer_read jb jb.config.frame_size).jb hIR
          (by rw [hcfgR]; exact hh) hbytes hfit
        have htrip : s_jitter_buffer_process jb =
            ((s_jitter_buffer_process jb).1, (s_jitter_buffer_process jb).2.1,
              (s_jitter_buffer_process jb).2.2) := rfl
        rcases Nat.eq_zero_or_pos (s_jitter_buffer_read jb jb.config.frame_size).ret
          with hz | hpos
        · have hbnil : (s_jitter_buffer_read jb jb.config.frame_size).bytes = [] :=
            hgen.2 hz
          have hceq : contents (s_jitter_buffer_read jb jb.config.frame_size).jb =
              contents jb := by
            have h1 := hgen.1
            rw [hbnil] at h1
            simpa using h1
          cases hos : jb.config.output_silence_on_empty with
          | false =>
            have hproc : s_jitter_buffer_process jb =
                (TickOut.noCall, (s_jitter_buffer_read jb jb.config.frame_size).events,
                  (s_jitter_buffer_read jb jb.config.frame_size).jb) := by
              rw [htrip, process_out, process_jb, process_events]
              rw [if_neg (by omega), if_neg (by simp [hos])]
            rw [runOps, hproc, hih, hceq, hOW]
          | true =>
            have hproc : s_jitter_buffer_process jb =
                (TickOut.silenceOut (List.replicate jb.config.frame_size 0),
                  (s_jitter_buffer_read jb jb.config.frame_size).events,
                  (s_jitter_buffer_read jb jb.config.frame_size).jb) := by
              rw [htrip, process_out, process_jb, process_events]
              rw [if_neg (by omega), if_pos hos]
            rw [runOps, hproc, hih, hceq, hOW]
        · have hproc : s_jitter_buffer_process jb =
              (TickOut.dataOut (s_jitter_buffer_read jb jb.config.frame_size).bytes,
                (s_jitter_buffer_read jb jb.config.frame_size).events,
                (s_jitter_buffer_read jb jb.config.frame_size).jb) := by
            rw [htrip, process_out, process_jb, process_events]
            rw [if_pos hpos]
          rw [runOps, hproc, List.flatten_cons, List.append_assoc, hih,
            ← List.append_assoc, hgen.1, hOW]
  · intro ops
    induction ops with
    | nil =>
      intro jb pending hI hh hc hpend hws hfit
      exact ⟨pending, hc, by simp [runOps, opsWrites]⟩
    | cons op ops ih =>
      intro jb pending hI hh hc hpend hws hfit
      cases op with
      | write p =>
        have hOW : opsWrites (Op.write p :: ops) = p :: opsWrites ops := rfl
        rw [hOW] at hws
        rw [opsFit] at hfit
        by_cases hcond : jb.data_size + wireLen jb p ≤ jb.buffer_size
        · rw [if_pos hcond] at hfit
          have hwire : wireLen jb p = 2 + p.length := by simp [wireLen, hh]
          rw [hwire] at hcond
          obtain ⟨hp256, hp16, hpF⟩ := hws p (List.mem_cons_self _ _)
          obtain ⟨hI1, hc1, hcfg1, hst1⟩ :=
            write_no_overflow_header jb p hI hh hp256 hcond
          have hc1' : contents (jitter_buffer_write jb p).2.1 =
              encodeRecords (pending ++ [p]) := by
            rw [hc1, hc, encodeRecords_snoc]
          obtain ⟨pendingF, hcF, hflatF⟩ :=
            ih (jitter_buffer_write jb p).2.1 (pending ++ [p]) hI1
              (by rw [hcfg1]; exact hh) hc1'
              (by intro q hq
                  rw [hcfg1]
                  rcases List.mem_append.mp hq with h | h
                  · exact hpend q h
                  · rw [List.mem_singleton.mp h]
                    exact ⟨hp16, hpF⟩)
              (by intro q hq
                  rw [hcfg1]
                  exact hws q (List.mem_cons_of_mem _ hq))
              hfit
          refine ⟨pendingF, ?_, ?_⟩
          · rw [runOps]
            exact hcF
          · rw [runOps, hOW, hflatF]
            simp [List.flatten_cons, List.append_assoc]
        · rw [if_neg hcond] at hfit
          exact absurd hfit (by simp)
      | tick =>
        have hOW : opsWrites (Op.tick :: ops) = opsWrites ops := rfl
        rw [hOW] at hws
        rw [opsFit, process_jb] at hfit
        have hcfgR := s_jitter_buffer_read_config jb jb.config.frame_size
        have hIR := Inv_s_jitter_buffer_read jb jb.config.frame_size hI
        obtain ⟨pending2, hc2, hgood2, hflat2, hz2⟩ :=
          read_header_general jb jb.config.frame_size pending hI hh hc hpend
        obtain ⟨pendingF, hcF, hflatF⟩ :=
          ih (s_jitter_buffer_read jb jb.config.frame_size).jb pending2 hIR
            (by rw [hcfgR]; exact hh)
            hc2
            (by intro q hq; rw [hcfgR]; exact hgood2 q hq)
            (by intro q hq; rw [hcfgR]; exact hws q hq)
            hfit
        have htrip : s_jitter_buffer_process jb =
            ((s_jitter_buffer_process jb).1, (s_jitter_buffer_process jb).2.1,
              (s_jitter_buffer_process jb).2.2) := rfl
        rcases Nat.eq_zero_or_pos (s_jitter_buffer_read jb jb.config.frame_size).ret
          with hz | hpos
        · have hbnil : (s_jitter_buffer_read jb jb.config.frame_size).bytes = [] :=
            hz2 hz
          have hpf2 : pending2.flatten = pending.flatten := by
            rw [hbnil] at hflat2
            simpa using hflat2
          cases hos : jb.config.output_silence_on_empty with
          | false =>
            have hproc : s_jitter_buffer_process jb =
                (TickOut.noCall, (s_jitter_buffer_read jb jb.config.frame_size).events,
                  (s_jitter_buffer_read jb jb.config.frame_size).jb) := by
              rw [htrip, process_out, process_jb, process_events]
              rw [if_neg (by omega), if_neg (by simp [hos])]
            refine ⟨pendingF, ?_, ?_⟩
            · rw [runOps, hproc]
              exact hcF
            · rw [runOps, hproc, hOW, hflatF, hpf2]
          | true =>
            have hproc : s_jitter_buffer_process jb =
                (TickOut.silenceOut (List.replicate jb.config.frame_size 0),
                  (s_jitter_buffer_read jb jb.config.frame_size).events,
                  (s_jitter_buffer_read jb jb.config.frame_size).jb) := by
              rw [htrip, process_out, process_jb, process_events]
              rw [if_neg (by omega), if_pos hos]
            refine ⟨pendingF, ?_, ?_⟩
            · rw [runOps, hproc]
              exact hcF
            · rw [runOps, hproc, hOW, hflatF, hpf2]
        · have hproc : s_jitter_buffer_process jb =
              (TickOut.dataOut (s_jitter_buffer_read jb jb.config.frame_size).bytes,
                (s_jitter_buffer_read jb jb.config.frame_size).events,
                (s_jitter_buffer_read jb jb.config.frame_size).jb) := by
            rw [htrip, process_out, process_jb, process_events]
            rw [if_pos hpos]
          refine ⟨pendingF, ?_, ?_⟩
          · rw [runOps, hproc]
            exact hcF
          · rw [runOps, hproc, hOW, List.flatten_cons, List.append_assoc, hflatF,
              ← List.append_assoc, hflat2]

theorem round_trip_fifo_witness :
    opsFit jbFixB
        [Op.write [1, 2], Op.tick, Op.write [3, 4], Op.tick, Op.tick] = true ∧
    (runOps jbFixB
          [Op.write [1, 2], Op.tick, Op.write [3, 4], Op.tick, Op.tick]).1.flatten ++
        contents (runOps jbFixB
          [Op.write [1, 2], Op.tick, Op.write [3, 4], Op.tick, Op.tick]).2 =
      contents jbFixB ++
        (opsWrites
          [Op.write [1, 2], Op.tick, Op.write [3, 4], Op.tick, Op.tick]).flatten :=
  ⟨by decide,
    round_trip_fifo.1 [Op.write [1, 2], Op.tick, Op.write [3, 4], Op.tick, Op.tick]
      jbFixB (by unfold Inv; decide) rfl (by decide) (by decide)⟩

end Jitter
